import Mathlib

/-!
Verification of the LEANN Apple Notes reader
(`apps/notes_data/LEANN_notes_reader.py`).

The Python source is shallowly embedded below: SQLite cell values become the
inductive `SQLValue` (SQLite is dynamically typed), the three joined tables
become lists of structures, the one SQL query becomes an executable function
over those lists, and every exception-bearing piece of Python becomes an
`Except`-valued function.  Python string/regex operations used by
`_clean_html_content` are implemented directly over `List Char`, each one
mirroring the specific regular expression it stands for.
-/

/-- A dynamically-typed SQLite cell value, as handed to Python by `sqlite3`
(NULL → `None`, INTEGER → `int`, REAL → `float` (modelled as `Rat`),
TEXT → `str`, BLOB → `bytes` (a list of byte values)). -/
inductive SQLValue where
  | null : SQLValue
  | int : Int → SQLValue
  | real : Rat → SQLValue
  | text : String → SQLValue
  | blob : List Nat → SQLValue
deriving DecidableEq, Repr

/-- Python truthiness of a `sqlite3` cell value (`None`, `0`, `0.0`, `""` and
`b""` are falsy, everything else truthy). -/
def truthy : SQLValue → Bool
  | .null => false
  | .int n => n ≠ 0
  | .real q => q ≠ 0
  | .text s => s ≠ ""
  | .blob bs => ¬ bs.isEmpty

/-- Python `a or b` on cell values: the first truthy operand. -/
def pyOr (a b : SQLValue) : SQLValue := if truthy a then a else b

/-- Rendering of a cell value inside a Python f-string / `str(...)`.
`int` and `str` values (the only ones the claims exercise) are rendered
exactly; the `float` shortest-roundtrip repr and the `bytes` repr are
approximated (integral floats exactly, as Python prints `3.0`). -/
def pyStr : SQLValue → String
  | .null => "None"
  | .int n => toString n
  | .real q => if q.den = 1 then toString q.num ++ ".0" else toString q.num ++ "/" ++ toString q.den
  | .text s => s
  | .blob bs => "b" ++ String.mk (bs.map Char.ofNat)

/-- The apostrophe character (`'`). -/
def squot : Char := Char.ofNat 39

/-- ASCII lower-casing of one character (how `re.IGNORECASE` and SQLite's
`LIKE` fold ASCII letters). -/
def asciiLower (c : Char) : Char :=
  if 'A' ≤ c ∧ c ≤ 'Z' then Char.ofNat (c.toNat + 32) else c

/-! ### `html.unescape` (CPython `html/__init__.py`)

The scanner reproduces the stdlib regex
`&(#[0-9]+;?|#[xX][0-9a-fA-F]+;?|[^\t\n\f <&#;]{1,32};?)` and
`_replace_charref`.  The stdlib's full HTML5 entity table has ~2200 entries;
the model carries the common subset (the theorems below only exercise
`&amp;`, and inputs without `&` are untouched exactly as in the stdlib). -/

/-- Modelled subset of CPython's `html5` named-entity table (it contains each
name both with and without the trailing semicolon, as the stdlib table does). -/
def namedCharRefs : List (String × String) :=
  [("amp;", "&"), ("amp", "&"), ("lt;", "<"), ("lt", "<"),
   ("gt;", ">"), ("gt", ">"), ("quot;", "\""), ("quot", "\""),
   ("apos;", "\x27"), ("nbsp;", " "), ("nbsp", " ")]

def lookupRef (s : String) : Option String :=
  (namedCharRefs.find? (fun p => p.1 = s)).map (fun p => p.2)

/-- Characters allowed in a named character reference: `[^\t\n\f <&#;]`. -/
def isCharrefNameChar (c : Char) : Bool :=
  ¬ (c = Char.ofNat 9 ∨ c = Char.ofNat 10 ∨ c = Char.ofNat 12 ∨ c = ' ' ∨
     c = '<' ∨ c = '&' ∨ c = '#' ∨ c = ';')

/-- Take up to `k` leading name characters. -/
def takeNameChars : Nat → List Char → List Char
  | 0, _ => []
  | _, [] => []
  | k + 1, c :: rest =>
    if isCharrefNameChar c then c :: takeNameChars k rest else []

/-- `chr` composed with the numeric branch of CPython `_replace_charref`:
surrogates and codepoints beyond U+10FFFF become U+FFFD.  (The stdlib
additionally remaps the windows-1252 range and drops some control
codepoints; no theorem exercises numeric references.) -/
def numCharref (n : Nat) : List Char :=
  if (0xD800 ≤ n ∧ n ≤ 0xDFFF) ∨ 0x10FFFF < n then ['�'] else [Char.ofNat n]

def isDigitChar (c : Char) : Bool := '0' ≤ c ∧ c ≤ '9'

def isHexChar (c : Char) : Bool :=
  ('0' ≤ c ∧ c ≤ '9') ∨ ('a' ≤ c ∧ c ≤ 'f') ∨ ('A' ≤ c ∧ c ≤ 'F')

def digitVal (c : Char) : Nat := c.toNat - 48

def hexVal (c : Char) : Nat :=
  if '0' ≤ c ∧ c ≤ '9' then c.toNat - 48
  else if 'a' ≤ c ∧ c ≤ 'f' then c.toNat - 87
  else c.toNat - 55

def digitsToNat (ds : List Char) : Nat := ds.foldl (fun a c => a * 10 + digitVal c) 0

def hexToNat (ds : List Char) : Nat := ds.foldl (fun a c => a * 16 + hexVal c) 0

/-- Longest-prefix lookup of CPython `_replace_charref` for a named reference
without (or with an unmatched) semicolon: try prefixes of length
`len(s)-1 … 2`, else leave `&name` verbatim. -/
def findRefPrefixAt : Nat → List Char → Option (List Char)
  | 0, _ => none
  | x + 1, s =>
    if x + 1 < 2 then none
    else
      match lookupRef (String.mk (s.take (x + 1))) with
      | some r => some (r.data ++ s.drop (x + 1))
      | none => findRefPrefixAt x s

/-- CPython `_replace_charref` on a captured named-reference group. -/
def replaceNamedRef (s : List Char) : List Char :=
  match lookupRef (String.mk s) with
  | some r => r.data
  | none =>
    match findRefPrefixAt (s.length - 1) s with
    | some r => r
    | none => '&' :: s

/-- Match of the stdlib character-reference regex against the text following
an `&`; on success returns the replacement text and the number of input
characters the matched reference consumed. -/
def charrefMatch (rest : List Char) : Option (List Char × Nat) :=
  match rest with
  | '#' :: r2 =>
    let dd := r2.takeWhile isDigitChar
    if dd.isEmpty then
      -- decimal alternative failed; try the hexadecimal one
      match r2 with
      | x :: r3 =>
        if x = 'x' ∨ x = 'X' then
          let hd := r3.takeWhile isHexChar
          if hd.isEmpty then none
          else if (r3.drop hd.length).head? = some ';' then
            some (numCharref (hexToNat hd), 2 + hd.length + 1)
          else
            some (numCharref (hexToNat hd), 2 + hd.length)
        else none
      | [] => none
    else if (r2.drop dd.length).head? = some ';' then
      some (numCharref (digitsToNat dd), 1 + dd.length + 1)
    else
      some (numCharref (digitsToNat dd), 1 + dd.length)
  | _ =>
    let nm := takeNameChars 32 rest
    if nm.isEmpty then none
    else if (rest.drop nm.length).head? = some ';' then
      some (replaceNamedRef (nm ++ [';']), nm.length + 1)
    else
      some (replaceNamedRef nm, nm.length)

/-- Generic `re.sub` scanner.  `m` attempts a match at the current position,
returning the replacement and the number of characters consumed (always ≥ 1
for the patterns modelled here); on no match the current character is copied
and scanning advances by one.  Structural fuel (instantiated with the input
length) keeps every instance kernel-computable. -/
def reSub (m : List Char → Option (List Char × Nat)) : Nat → List Char → List Char
  | 0, _ => []
  | _ + 1, [] => []
  | fuel + 1, c :: rest =>
    match m (c :: rest) with
    | some (repl, n) => repl ++ reSub m fuel (List.drop n (c :: rest))
    | none => c :: reSub m fuel rest

/-- The character-reference pattern, as a match at the current position. -/
def charrefSubMatcher : List Char → Option (List Char × Nat)
  | '&' :: rest => (charrefMatch rest).map (fun p => (p.1, p.2 + 1))
  | _ => none

/-- CPython `html.unescape`, over character lists. -/
def unescapeCore (l : List Char) : List Char := reSub charrefSubMatcher l.length l

/-! ### The regex substitutions of `_clean_html_content`

Each matcher mirrors one regular expression exactly (leftmost match, greedy
quantifiers, non-overlapping continuation after each match). -/

/-- Match of the block-tag-name alternation `(div|p|br|h[1-6]|li)`
(case-insensitive); on success returns the number of name characters.  The
alternatives have pairwise distinct first letters, so first-letter dispatch
is exact. -/
def matchBlockName : List Char → Option Nat
  | [] => none
  | c :: rest =>
    if asciiLower c = 'd' then
      match rest with
      | c2 :: c3 :: _ =>
        if asciiLower c2 = 'i' ∧ asciiLower c3 = 'v' then some 3 else none
      | _ => none
    else if asciiLower c = 'p' then some 1
    else if asciiLower c = 'b' then
      match rest with
      | c2 :: _ => if asciiLower c2 = 'r' then some 2 else none
      | [] => none
    else if asciiLower c = 'h' then
      match rest with
      | c2 :: _ => if '1' ≤ c2 ∧ c2 ≤ '6' then some 2 else none
      | [] => none
    else if asciiLower c = 'l' then
      match rest with
      | c2 :: _ => if asciiLower c2 = 'i' then some 2 else none
      | [] => none
    else none

/-- Index of the first `>` in the input, if any (greedy `[^>]*` cannot cross
a `>`, so a tag match always ends at the first one). -/
def gtIdx : List Char → Option Nat
  | [] => none
  | c :: rest => if c = '>' then some 0 else (gtIdx rest).map (· + 1)

/-- Match of `</(div|p|br|h[1-6]|li)>` at a position whose `<` has been
consumed; returns the number of characters consumed after the `<`. -/
def matchCloseTag (rest : List Char) : Option Nat :=
  match rest with
  | '/' :: r2 =>
    match matchBlockName r2 with
    | some n => if (r2.drop n).head? = some '>' then some (1 + n + 1) else none
    | none => none
  | _ => none

def closeTagMatcher : List Char → Option (List Char × Nat)
  | '<' :: rest => (matchCloseTag rest).map (fun n => (['\n'], n + 1))
  | _ => none

/-- `re.sub(r'</(div|p|br|h[1-6]|li)>', '\n', text, flags=re.IGNORECASE)`. -/
def closeTagsToNewline (l : List Char) : List Char := reSub closeTagMatcher l.length l

/-- Match of `<(div|p|br|h[1-6]|li)[^>]*>` at a position whose `<` has been
consumed. -/
def matchOpenTag (rest : List Char) : Option Nat :=
  match matchBlockName rest with
  | some n =>
    match gtIdx (rest.drop n) with
    | some i => some (n + i + 1)
    | none => none
  | none => none

def openTagMatcher : List Char → Option (List Char × Nat)
  | '<' :: rest => (matchOpenTag rest).map (fun n => (['\n'], n + 1))
  | _ => none

/-- `re.sub(r'<(div|p|br|h[1-6]|li)[^>]*>', '\n', text, flags=re.IGNORECASE)`. -/
def openTagsToNewline (l : List Char) : List Char := reSub openTagMatcher l.length l

/-- Match of `<[^>]+>` at a position whose `<` has been consumed: at least
one non-`>` character, then the first `>`. -/
def anyTagMatch (rest : List Char) : Option Nat :=
  match rest with
  | '>' :: _ => none
  | _ =>
    match gtIdx rest with
    | some i => some (i + 1)
    | none => none

def anyTagMatcher : List Char → Option (List Char × Nat)
  | '<' :: rest => (anyTagMatch rest).map (fun n => (([] : List Char), n + 1))
  | _ => none

/-- `re.sub(r'<[^>]+>', '', text)`. -/
def stripAllTags (l : List Char) : List Char := reSub anyTagMatcher l.length l

/-- Python `\s` on `str` (whitespace characters; the ASCII set plus NBSP,
which our entity table can produce -- further Unicode whitespace is not
modelled, no theorem exercises it). -/
def isPySpaceChar (c : Char) : Bool :=
  c = ' ' ∨ c = Char.ofNat 9 ∨ c = Char.ofNat 10 ∨ c = Char.ofNat 11 ∨
  c = Char.ofNat 12 ∨ c = Char.ofNat 13 ∨ c = Char.ofNat 0xA0

/-- Within the maximal whitespace run at the head of the input, the index of
the last newline (`none` if the run has no newline).  This is exactly where
the greedy `\s*` of `\n\s*\n` backtracks to. -/
def lastNlIdx : List Char → Option Nat
  | [] => none
  | c :: rest =>
    if isPySpaceChar c then
      match lastNlIdx rest with
      | some i => some (i + 1)
      | none => if c = '\n' then some 0 else none
    else none

def blankLineMatcher : List Char → Option (List Char × Nat)
  | '\n' :: rest => (lastNlIdx rest).map (fun i => (['\n', '\n'], i + 2))
  | _ => none

/-- `re.sub(r'\n\s*\n', '\n\n', text)`. -/
def collapseBlankLines (l : List Char) : List Char := reSub blankLineMatcher l.length l

def isSpTab (c : Char) : Bool := c = ' ' ∨ c = Char.ofNat 9

/-- Length of the leading run of spaces/tabs. -/
def spTabRunLen : List Char → Nat
  | [] => 0
  | c :: rest => if isSpTab c then spTabRunLen rest + 1 else 0

def spaceRunMatcher : List Char → Option (List Char × Nat)
  | c :: rest => if isSpTab c then some ([' '], spTabRunLen rest + 1) else none
  | [] => none

/-- `re.sub(r'[ \t]+', ' ', text)`. -/
def collapseSpaces (l : List Char) : List Char := reSub spaceRunMatcher l.length l

/-- Python `str.strip()`: drop whitespace from both ends. -/
def pyStrip (l : List Char) : List Char :=
  ((l.dropWhile isPySpaceChar).reverse.dropWhile isPySpaceChar).reverse

/-- `NotesReader._clean_html_content`. -/
def cleanHtmlContent (s : String) : String :=
  if s = "" then ""
  else
    String.mk (pyStrip (collapseSpaces (collapseBlankLines (stripAllTags
      (openTagsToNewline (closeTagsToNewline (unescapeCore s.data)))))))

/-! ### UTF-8 decoding with `errors='ignore'`

`content_data.decode('utf-8', errors='ignore')`: valid sequences decode,
invalid maximal subparts are skipped (CPython skips the bytes of the maximal
valid subpart, at least the lead byte; at end of input the truncated tail is
skipped). -/

/-- Second-byte range check for a 3-byte lead. -/
def utf8Cont3Ok (b b2 : Nat) : Bool :=
  if b = 0xE0 then 0xA0 ≤ b2 ∧ b2 ≤ 0xBF
  else if b = 0xED then 0x80 ≤ b2 ∧ b2 ≤ 0x9F
  else 0x80 ≤ b2 ∧ b2 ≤ 0xBF

/-- Second-byte range check for a 4-byte lead. -/
def utf8Cont4Ok (b b2 : Nat) : Bool :=
  if b = 0xF0 then 0x90 ≤ b2 ∧ b2 ≤ 0xBF
  else if b = 0xF4 then 0x80 ≤ b2 ∧ b2 ≤ 0x8F
  else 0x80 ≤ b2 ∧ b2 ≤ 0xBF

def utf8ContOk (b2 : Nat) : Bool := 0x80 ≤ b2 ∧ b2 ≤ 0xBF

/-- `bytes.decode('utf-8', errors='ignore')`, with structural fuel (any fuel
≥ the byte count is adequate: every step consumes at least one byte). -/
def utf8DecodeIgnoreF : Nat → List Nat → List Char
  | 0, _ => []
  | _ + 1, [] => []
  | fuel + 1, b :: rest =>
    if b < 0x80 then Char.ofNat b :: utf8DecodeIgnoreF fuel rest
    else if 0xC2 ≤ b ∧ b ≤ 0xDF then
      match rest with
      | b2 :: r2 =>
        if utf8ContOk b2 then
          Char.ofNat ((b - 0xC0) * 0x40 + (b2 - 0x80)) :: utf8DecodeIgnoreF fuel r2
        else utf8DecodeIgnoreF fuel rest
      | [] => []
    else if 0xE0 ≤ b ∧ b ≤ 0xEF then
      match rest with
      | b2 :: r2 =>
        if utf8Cont3Ok b b2 then
          match r2 with
          | b3 :: r3 =>
            if utf8ContOk b3 then
              Char.ofNat ((b - 0xE0) * 0x1000 + (b2 - 0x80) * 0x40 + (b3 - 0x80)) ::
                utf8DecodeIgnoreF fuel r3
            else utf8DecodeIgnoreF fuel r2
          | [] => []
        else utf8DecodeIgnoreF fuel rest
      | [] => []
    else if 0xF0 ≤ b ∧ b ≤ 0xF4 then
      match rest with
      | b2 :: r2 =>
        if utf8Cont4Ok b b2 then
          match r2 with
          | b3 :: r3 =>
            if utf8ContOk b3 then
              match r3 with
              | b4 :: r4 =>
                if utf8ContOk b4 then
                  Char.ofNat ((b - 0xF0) * 0x40000 + (b2 - 0x80) * 0x1000 +
                    (b3 - 0x80) * 0x40 + (b4 - 0x80)) :: utf8DecodeIgnoreF fuel r4
                else utf8DecodeIgnoreF fuel r3
              | [] => []
            else utf8DecodeIgnoreF fuel r2
          | [] => []
        else utf8DecodeIgnoreF fuel rest
      | [] => []
    else utf8DecodeIgnoreF fuel rest

def utf8DecodeIgnore (l : List Nat) : List Char := utf8DecodeIgnoreF l.length l

/-! ### `NotesReader._format_timestamp`

Core Data epoch offset: `(datetime(2001,1,1) - datetime(1970,1,1)).total_seconds()`
is `978307200.0`.  `datetime.fromtimestamp` works in local time, modelled by an
explicit UTC-offset parameter `tz` (in seconds).  Its failures split in two:

* whenever the (IEEE-double) second count fits the platform `time_t`
  (64-bit), every failure is a `ValueError` (year outside 1..9999) or an
  `OSError` (`localtime` overflow for years beyond the C `int` range) — both
  caught by the `except (ValueError, OSError)` and rendered `"Invalid
  Date"`;
* when it does not fit, `fromtimestamp` raises `OverflowError`
  (`"timestamp out of range for platform time_t"`), which the `except`
  clause does *not* catch: the exception escapes the row loop.

`timestamp + offset` is float arithmetic (`offset` is a float), so the cell
value is rounded to the nearest double, the sum is rounded again, and the
`time_t` range test is on the rounded value; `dblRound` models that
rounding exactly (verified against CPython at the boundary).  Sub-second
double rounding exactly at a half-ulp integer boundary, and IEEE
infinities (not representable in `Rat`), are outside the model. -/

/-- Fueled bit length of a natural number (`bitLen` instantiates the fuel). -/
def bitLenF : Nat → Nat → Nat
  | 0, _ => 0
  | _ + 1, 0 => 0
  | fuel + 1, n => bitLenF fuel (n / 2) + 1

def bitLen (n : Nat) : Nat := bitLenF n n

/-- Nearest IEEE-754 double to a natural number (round half to even):
integers of at most 53 bits are exact; larger ones round to the nearest
multiple of `2 ^ (bits - 53)`. -/
def dblRoundNat (m : Nat) : Nat :=
  let b := bitLen m
  if b ≤ 53 then m
  else
    let g := 2 ^ (b - 53)
    let q := m / g
    let r := m % g
    if 2 * r < g then q * g
    else if g < 2 * r then (q + 1) * g
    else (if q % 2 = 0 then q else q + 1) * g

/-- Nearest double to an integer (IEEE rounding is sign-symmetric). -/
def dblRound (u : Int) : Int :=
  if 0 ≤ u then (dblRoundNat u.toNat : Int) else -(dblRoundNat (-u).toNat : Int)

/-- Proleptic-Gregorian date from days since 1970-01-01 (the standard
civil-from-days algorithm, with floor division). -/
def civilFromDays (z0 : Int) : Int × Int × Int :=
  let z := z0 + 719468
  let era : Int := Int.fdiv z 146097
  let doe : Int := z - era * 146097
  let yoe : Int := Int.fdiv (doe - Int.fdiv doe 1460 + Int.fdiv doe 36524 - Int.fdiv doe 146096) 365
  let y : Int := yoe + era * 400
  let doy : Int := doe - (365 * yoe + Int.fdiv yoe 4 - Int.fdiv yoe 100)
  let mp : Int := Int.fdiv (5 * doy + 2) 153
  let d : Int := doy - Int.fdiv (153 * mp + 2) 5 + 1
  let m : Int := mp + (if mp < 10 then 3 else -9)
  (y + (if m ≤ 2 then 1 else 0), m, d)

def pad2 (n : Int) : String := (if n < 10 then "0" else "") ++ toString n

/-- `datetime.fromtimestamp(u, local tz at offset tz)`: `none` models the
raised `ValueError` for years outside 1..9999. -/
def fromtimestampLocal (tz u : Int) : Option (Int × Int × Int × Int × Int × Int) :=
  let t := u + tz
  let days := Int.fdiv t 86400
  let sod := t - days * 86400
  let c := civilFromDays days
  if c.1 < 1 ∨ 9999 < c.1 then none
  else some (c.1, c.2.1, c.2.2, Int.fdiv sod 3600, Int.fdiv (Int.fmod sod 3600) 60, Int.fmod sod 60)

/-- `dt.strftime("%Y-%m-%d %H:%M:%S")` (glibc prints the year unpadded;
identical to `%Y` padding for every year ≥ 1000). -/
def strftimeYmdHms (dt : Int × Int × Int × Int × Int × Int) : String :=
  toString dt.1 ++ "-" ++ pad2 dt.2.1 ++ "-" ++ pad2 dt.2.2.1 ++ " " ++
    pad2 dt.2.2.2.1 ++ ":" ++ pad2 dt.2.2.2.2.1 ++ ":" ++ pad2 dt.2.2.2.2.2

/-- `NotesReader._format_timestamp`, applied to the dynamically-typed cell
value the row loop feeds it.  `.error ()` is an *uncaught* exception: a
truthy non-numeric value raises `TypeError` at `timestamp + offset` (the
`try` only spans `fromtimestamp` and only catches `ValueError`/`OSError`),
and a numeric value whose double-rounded second count leaves the 64-bit
`time_t` range raises `OverflowError` inside `fromtimestamp` — also not
caught.  An INTEGER cell is rounded to double and the float addition
rounds again; a REAL cell is already a double, so only the sum rounds (and
`floor (q + n) = q.floor + n` for the integer offset). -/
def formatTimestampV (tz : Int) (v : SQLValue) : Except Unit String :=
  if ¬ truthy v then .ok "Unknown"
  else
    match v with
    | .int n =>
      let d := dblRound (dblRound n + 978307200)
      if d < -(2 ^ 63) ∨ 2 ^ 63 ≤ d then .error ()
      else
        .ok (match fromtimestampLocal tz d with
             | some dt => strftimeYmdHms dt
             | none => "Invalid Date")
    | .real q =>
      let d := dblRound (q.floor + 978307200)
      if d < -(2 ^ 63) ∨ 2 ^ 63 ≤ d then .error ()
      else
        .ok (match fromtimestampLocal tz d with
             | some dt => strftimeYmdHms dt
             | none => "Invalid Date")
    | _ => .error ()

/-! ### SQLite comparison, ordering and `LIKE` -/

/-- SQLite storage-class rank for ORDER BY: NULL < numeric < TEXT < BLOB. -/
def sqlClassRank : SQLValue → Nat
  | .null => 0
  | .int _ => 1
  | .real _ => 1
  | .text _ => 2
  | .blob _ => 3

def charListLt : List Char → List Char → Bool
  | [], [] => false
  | [], _ :: _ => true
  | _ :: _, [] => false
  | a :: as, b :: bs => a < b ∨ (a = b ∧ charListLt as bs)

def natListLt : List Nat → List Nat → Bool
  | [], [] => false
  | [], _ :: _ => true
  | _ :: _, [] => false
  | a :: as, b :: bs => a < b ∨ (a = b ∧ natListLt as bs)

/-- SQLite value ordering (BINARY collation for text, memcmp for blobs,
numeric affinity across int/real). -/
def sqlValueLt (a b : SQLValue) : Bool :=
  if sqlClassRank a ≠ sqlClassRank b then sqlClassRank a < sqlClassRank b
  else
    match a, b with
    | .int x, .int y => x < y
    | .int x, .real y => (x : Rat) < y
    | .real x, .int y => x < (y : Rat)
    | .real x, .real y => x < y
    | .text x, .text y => charListLt x.data y.data
    | .blob x, .blob y => natListLt x y
    | _, _ => false

/-- SQLite `=` evaluating to true (NULL and cross-class comparisons are not
true). -/
def sqlEqB (a b : SQLValue) : Bool :=
  match a, b with
  | .int x, .int y => x = y
  | .int x, .real y => (x : Rat) = y
  | .real x, .int y => x = (y : Rat)
  | .real x, .real y => x = y
  | .text x, .text y => x = y
  | .blob x, .blob y => x = y
  | _, _ => false

/-- SQLite `LIKE` pattern matching with structural fuel (`%` matches any
sequence, `_` any single character, other characters fold ASCII case).
Adequate fuel is `pattern.length + s.length + 1`. -/
def likeMatchF : Nat → List Char → List Char → Bool
  | 0, _, _ => false
  | fuel + 1, p, s =>
    match p with
    | [] => s.isEmpty
    | c :: ps =>
      if c = '%' then
        likeMatchF fuel ps s ||
          (match s with
           | [] => false
           | _ :: cs => likeMatchF fuel ('%' :: ps) cs)
      else if c = '_' then
        match s with
        | [] => false
        | _ :: cs => likeMatchF fuel ps cs
      else
        match s with
        | [] => false
        | d :: cs => asciiLower c = asciiLower d ∧ likeMatchF fuel ps cs

/-- SQLite `LIKE` on strings. -/
def sqlLike (pat s : String) : Bool :=
  likeMatchF (pat.data.length + s.data.length + 1) pat.data s.data

/-- `sqlite3ValueText`: coercion of a non-NULL value to text for `LIKE`
(numeric values print decimally; blobs are taken bytewise -- only text folder
titles are exercised by any theorem). -/
def sqlCastText : SQLValue → String
  | .null => ""
  | .int n => toString n
  | .real q => pyStr (.real q)
  | .text s => s
  | .blob bs => String.mk (bs.map Char.ofNat)

/-! ### The notes database schema and the one query

```
SELECT n.Z_PK, n.ZTITLE, n.ZSNIPPET, n.ZCREATIONDATE, n.ZMODIFICATIONDATE,
       nb.ZDATA, f.ZTITLE
FROM ZICNOTEDATA n
LEFT JOIN ZICNOTEBODY nb ON n.Z_PK = nb.ZNOTE
LEFT JOIN ZICFOLDER f ON n.ZFOLDER = f.Z_PK
WHERE n.ZMARKEDFORDELETION = 0 [AND f.ZTITLE LIKE '%{filter}%']
ORDER BY n.ZMODIFICATIONDATE DESC [LIMIT {max_count}]
```
-/

structure ZNote where
  z_pk : SQLValue
  ztitle : SQLValue
  zsnippet : SQLValue
  zcreationdate : SQLValue
  zmodificationdate : SQLValue
  zmarkedfordeletion : SQLValue
  zfolder : SQLValue
deriving DecidableEq, Repr

structure ZNoteBody where
  znote : SQLValue
  zdata : SQLValue
deriving DecidableEq, Repr

structure ZFolder where
  z_pk : SQLValue
  ztitle : SQLValue
deriving DecidableEq, Repr

structure NotesDB where
  zicnotedata : List ZNote
  zicnotebody : List ZNoteBody
  zicfolder : List ZFolder
deriving DecidableEq, Repr

/-- One result row of the query, as `sqlite3.Row` hands it to the loop. -/
structure QueryRow where
  note_id : SQLValue
  title : SQLValue
  snippet : SQLValue
  creation_date : SQLValue
  modification_date : SQLValue
  content_data : SQLValue
  folder_name : SQLValue
deriving DecidableEq, Repr

/-- The two LEFT JOINs: every note, paired with each matching body value
(else NULL) and each matching folder title (else NULL). -/
def joinedTriples (db : NotesDB) : List (ZNote × SQLValue × SQLValue) :=
  db.zicnotedata.flatMap (fun n =>
    let bodies := (db.zicnotebody.filter (fun nb => sqlEqB n.z_pk nb.znote)).map (fun nb => nb.zdata)
    let bodyVals := if bodies.isEmpty then [SQLValue.null] else bodies
    let folders := (db.zicfolder.filter (fun fl => sqlEqB n.zfolder fl.z_pk)).map (fun fl => fl.ztitle)
    let folderVals := if folders.isEmpty then [SQLValue.null] else folders
    bodyVals.flatMap (fun bv => folderVals.map (fun fv => (n, bv, fv))))

/-- The WHERE clause (applied, as in SQL, to the joined rows): the deletion
flag must equal 0 and, when a folder filter is active, the folder title must
be non-NULL and `LIKE` the pattern. -/
def whereOk (pat : Option String) (t : ZNote × SQLValue × SQLValue) : Bool :=
  sqlEqB t.1.zmarkedfordeletion (.int 0) &&
    match pat with
    | none => true
    | some p =>
      match t.2.2 with
      | .null => false
      | v => sqlLike p (sqlCastText v)

/-- Stable insertion into a list sorted by modification date descending
(SQLite leaves tie order unspecified; the model picks the stable order). -/
def insertByModDesc (t : ZNote × SQLValue × SQLValue) :
    List (ZNote × SQLValue × SQLValue) → List (ZNote × SQLValue × SQLValue)
  | [] => [t]
  | x :: xs =>
    if sqlValueLt x.1.zmodificationdate t.1.zmodificationdate then t :: x :: xs
    else x :: insertByModDesc t xs

/-- `ORDER BY n.ZMODIFICATIONDATE DESC` (NULLs, being smallest, come last). -/
def sortByModDesc : List (ZNote × SQLValue × SQLValue) → List (ZNote × SQLValue × SQLValue)
  | [] => []
  | t :: ts => insertByModDesc t (sortByModDesc ts)

def projectRow (t : ZNote × SQLValue × SQLValue) : QueryRow :=
  ⟨t.1.z_pk, t.1.ztitle, t.1.zsnippet, t.1.zcreationdate, t.1.zmodificationdate, t.2.1, t.2.2⟩

/-- SQLite lexing of a single-quoted string literal body (the opening quote
already consumed): `''` is an escaped quote; returns the literal's content
and the input after the closing quote, `none` if unterminated. -/
def sqlLexQuoted : List Char → Option (List Char × List Char)
  | [] => none
  | c :: rest =>
    if c = squot then
      match rest with
      | c2 :: r2 =>
        if c2 = squot then (sqlLexQuoted r2).map (fun p => (squot :: p.1, p.2))
        else some ([], rest)
      | [] => some ([], [])
    else (sqlLexQuoted rest).map (fun p => (c :: p.1, p.2))

/-- SQLite whitespace (space, TAB, LF, FF, CR — `sqlite3IsSpace`). -/
def isSqlSpace (c : Char) : Bool :=
  c = ' ' ∨ c = Char.ofNat 9 ∨ c = Char.ofNat 10 ∨ c = Char.ofNat 12 ∨ c = Char.ofNat 13

/-- Characters of SQLite words (identifiers, keywords, integer literals). -/
def isWordChar (c : Char) : Bool :=
  ('0' ≤ c ∧ c ≤ '9') ∨ ('a' ≤ c ∧ c ≤ 'z') ∨ ('A' ≤ c ∧ c ≤ 'Z') ∨ c = '_'

/-- A `--` line comment runs to the next newline (or the end of the text —
the spliced statement is built on one line, so a comment started inside the
filter swallows the `ORDER BY` and `LIMIT` clauses appended after it). -/
def dropLineComment (l : List Char) : List Char :=
  l.dropWhile (fun c => ¬ c = Char.ofNat 10)

/-- Token of the re-lexed spliced text; words are case-folded (SQLite
keywords and identifiers are case-insensitive). -/
inductive SqlTok where
  | word : String → SqlTok
  | str : String → SqlTok
  | sym : Char → SqlTok
deriving DecidableEq, Repr

/-- SQLite tokenizer over the spliced remainder (fuel: every step consumes
at least one character, so input length + 1 suffices).  `none` is a lexical
error — an unterminated string literal — on which `cursor.execute` raises
`sqlite3.Error`. -/
def sqlLexTail : Nat → List Char → Option (List SqlTok)
  | 0, _ => none
  | _ + 1, [] => some []
  | fuel + 1, c :: rest =>
    if isSqlSpace c then sqlLexTail fuel rest
    else if c = '-' then
      match rest with
      | '-' :: r2 => sqlLexTail fuel (dropLineComment r2)
      | _ => (sqlLexTail fuel rest).map (fun ts => SqlTok.sym '-' :: ts)
    else if c = squot then
      match sqlLexQuoted rest with
      | some p => (sqlLexTail fuel p.2).map (fun ts => SqlTok.str (String.mk p.1) :: ts)
      | none => none
    else if isWordChar c then
      (sqlLexTail fuel (rest.dropWhile isWordChar)).map
        (fun ts =>
          SqlTok.word (String.mk ((c :: rest.takeWhile isWordChar).map asciiLower)) :: ts)
    else (sqlLexTail fuel rest).map (fun ts => SqlTok.sym c :: ts)

def digitChar (n : Nat) : Char :=
  match n with
  | 0 => '0' | 1 => '1' | 2 => '2' | 3 => '3' | 4 => '4'
  | 5 => '5' | 6 => '6' | 7 => '7' | 8 => '8' | _ => '9'

def natDigitsF : Nat → Nat → List Char
  | 0, _ => []
  | _ + 1, 0 => []
  | fuel + 1, n => natDigitsF fuel (n / 10) ++ [digitChar (n % 10)]

/-- Decimal rendering of an integer (Python `str` of an `int`, as the
f-string `f" LIMIT {max_count}"` embeds it). -/
def intDecimal (i : Int) : List Char :=
  if i < 0 then '-' :: natDigitsF (-i).toNat (-i).toNat
  else if i = 0 then ['0']
  else natDigitsF i.toNat i.toNat

/-- The SQL text the f-strings append after the spliced filter: the closing
`%'`, the fixed `ORDER BY` clause and, for a positive `max_count`, the
`LIMIT` clause — all on the same line.  An injected filter is re-lexed
together with this text. -/
def spliceTail (mc : Int) : List Char :=
  (" ORDER BY n.ZMODIFICATIONDATE DESC").data ++
    (if 0 < mc then (" LIMIT ").data ++ intDecimal mc else [])

/-- Token shape of an intact `ORDER BY n.ZMODIFICATIONDATE DESC` clause. -/
def orderToks : List SqlTok :=
  [SqlTok.word "order", SqlTok.word "by", SqlTok.word "n", SqlTok.sym '.',
   SqlTok.word "zmodificationdate", SqlTok.word "desc"]

/-- How the statement containing the spliced filter executes: `bad` — it
does not lex/parse and `cursor.execute` raises `sqlite3.Error`;
`run pattern ordered limited` — it executes with the given LIKE pattern,
with or without the `ORDER BY` and `LIMIT` clauses. -/
inductive SpliceShape where
  | bad : SpliceShape
  | run : String → Bool → Bool → SpliceShape
deriving DecidableEq, Repr

/-- The f-string `f" AND f.ZTITLE LIKE '%{folder_filter}%'"` splices the raw
filter into the SQL text; this classifies how the resulting statement
parses.  The model covers exactly the shapes the theorems and
counterexamples exercise, mirroring SQLite's lexer (verified against
`sqlite3`):

* the remainder after the LIKE literal is exactly the appended tail — the
  clean shape: the pattern is one literal and `ORDER BY`/`LIMIT` survive;
* the remainder lexes to no tokens at all (a `--` comment begun inside the
  filter swallows everything to the end of the line, `ORDER BY` and `LIMIT`
  included) — the statement is valid and runs unsorted and uncapped;
* the remainder lexes to exactly the `ORDER BY` tokens — ordered, uncapped;
* the literal or a re-opened literal is unterminated — `sqlite3.Error`.

Splices that lex to any other token shape (e.g. ones splicing further
boolean terms into the WHERE clause) are outside the model and are
conservatively mapped to the error outcome; no theorem quantifies over
them. -/
def classifySplice (f : String) (mc : Int) : SpliceShape :=
  let frag := '%' :: f.data ++ ['%', squot] ++ spliceTail mc
  match sqlLexQuoted frag with
  | none => SpliceShape.bad
  | some (content, rest) =>
    if rest = spliceTail mc then SpliceShape.run (String.mk content) true (0 < mc)
    else
      match sqlLexTail (rest.length + 1) rest with
      | none => SpliceShape.bad
      | some toks =>
        if toks = [] then SpliceShape.run (String.mk content) false false
        else if toks = orderToks then SpliceShape.run (String.mk content) true false
        else SpliceShape.bad

/-- The effective query plan: LIKE pattern (if a filter is active), whether
`ORDER BY` survived, whether `LIMIT` survived. -/
structure QueryPlan where
  pat : Option String
  ordered : Bool
  limited : Bool
deriving DecidableEq, Repr

/-- Build the plan of `cursor.execute(query)`: `.error ()` is a
`sqlite3.Error` from a bad splice; a falsy filter adds no LIKE clause. -/
def buildPlan (folderFilter : Option String) (mc : Int) : Except Unit QueryPlan :=
  match folderFilter with
  | some f =>
    if f ≠ "" then
      match classifySplice f mc with
      | .bad => .error ()
      | .run p o l => .ok ⟨some p, o, l⟩
    else .ok ⟨none, true, 0 < mc⟩
  | none => .ok ⟨none, true, 0 < mc⟩

/-- `cursor.execute(query)` + `fetchall()`.  Without `ORDER BY` (comment
injection), SQLite returns this single-scan LEFT JOIN in base-table order —
the model commits to the join order (verified against `sqlite3`). -/
def queryRows (db : NotesDB) (folderFilter : Option String) (maxCount : Int) :
    Except Unit (List QueryRow) :=
  match buildPlan folderFilter maxCount with
  | .error e => .error e
  | .ok plan =>
    let kept := (joinedTriples db).filter (whereOk plan.pat)
    let sorted := if plan.ordered then sortByModDesc kept else kept
    let limited := if plan.limited then sorted.take maxCount.toNat else sorted
    Except.ok (limited.map projectRow)

/-! ### The row loop of `NotesReader.load_data` -/

/-- Constructor options of `NotesReader.__init__`. -/
structure Config where
  include_folders : Bool
  include_metadata : Bool
deriving DecidableEq, Repr

/-- A `llama_index` `Document` as `load_data` builds it: the text, the
metadata entries, and the explicit id.  `folder` / the two date strings are
`none` when the corresponding option leaves the key out of the mapping. -/
structure Doc where
  text : String
  note_id : String
  title : SQLValue
  source : String
  folder : Option SQLValue
  creation_date : Option String
  modification_date : Option String
  id_ : String
deriving DecidableEq, Repr

/-- `content_data.decode('utf-8', errors='ignore')`: only `bytes` has
`.decode`; on any other (truthy) value Python raises `AttributeError`. -/
def decodeContent : SQLValue → Except Unit String
  | .blob bs => .ok (String.mk (utf8DecodeIgnore bs))
  | _ => .error ()

/-- `snippet = row['snippet'] or ""`. -/
def rowSnippet (r : QueryRow) : SQLValue := pyOr r.snippet (.text "")

/-- The `content` variable at the `if not content: continue` check: start
empty; if `content_data` is truthy, try decode-and-clean, falling back to
the snippet on any exception; then fall back to a truthy snippet if still
falsy. -/
def rowContent (r : QueryRow) : SQLValue :=
  let c : SQLValue :=
    if truthy r.content_data then
      match decodeContent r.content_data with
      | .ok raw => .text (cleanHtmlContent raw)
      | .error _ => rowSnippet r
    else .text ""
  if ¬ truthy c ∧ truthy (rowSnippet r) then rowSnippet r else c

/-- The body of the `for row in rows` loop for one row: `.ok none` when the
row is skipped (`continue`), `.ok (some doc)` when a document is appended,
`.error ()` when an uncaught exception (a `TypeError` from
`_format_timestamp` on a truthy non-numeric date) escapes the loop. -/
def processRow (cfg : Config) (tz : Int) (r : QueryRow) : Except Unit (Option Doc) :=
  let title := pyOr r.title (.text ("Note " ++ pyStr r.note_id))
  let content := rowContent r
  if ¬ truthy content then .ok none
  else
    let noteText := "Title: " ++ pyStr title ++ "\n\n" ++ pyStr content
    let folderName := pyOr r.folder_name (.text "Notes")
    match (if cfg.include_metadata then (formatTimestampV tz r.creation_date).map some
           else .ok none : Except Unit (Option String)) with
    | .error e => .error e
    | .ok cd =>
      match (if cfg.include_metadata then (formatTimestampV tz r.modification_date).map some
             else .ok none : Except Unit (Option String)) with
      | .error e => .error e
      | .ok md =>
        .ok (some
          { text := noteText
            note_id := pyStr r.note_id
            title := title
            source := "Apple Notes"
            folder := if cfg.include_folders then some folderName else none
            creation_date := cd
            modification_date := md
            id_ := "note_" ++ pyStr r.note_id })

/-- The whole row loop: documents are appended in row order; the first
uncaught per-row exception aborts the loop (and, in `load_data`, the run). -/
def processRows (cfg : Config) (tz : Int) : List QueryRow → Except Unit (List Doc)
  | [] => .ok []
  | r :: rs =>
    match processRow cfg tz r with
    | .error e => .error e
    | .ok d =>
      match processRows cfg tz rs with
      | .error e => .error e
      | .ok ds => .ok (d.toList ++ ds)

/-! ### `NotesReader.load_data` -/

/-- Why `load_data` raised. -/
inductive LoadErr where
  | fileNotFound : LoadErr
  | sqliteError : LoadErr
  | unexpectedError : LoadErr
deriving DecidableEq, Repr

instance {ε α : Type} [DecidableEq ε] [DecidableEq α] : DecidableEq (Except ε α)
  | .ok x, .ok y =>
    if h : x = y then .isTrue (congrArg Except.ok h)
    else .isFalse (fun hc => h (Except.ok.inj hc))
  | .error x, .error y =>
    if h : x = y then .isTrue (congrArg Except.error h)
    else .isFalse (fun hc => h (Except.error.inj hc))
  | .ok _, .error _ => .isFalse (fun hc => Except.noConfusion hc)
  | .error _, .ok _ => .isFalse (fun hc => Except.noConfusion hc)

/-- Outcome of one `load_data` call, tracking the sqlite connection:
`connOpened` — `sqlite3.connect` ran; `connClosed` — `conn.close()` ran
before the call returned or raised. -/
structure LoadResult where
  result : Except LoadErr (List Doc)
  connOpened : Bool
  connClosed : Bool
deriving DecidableEq, Repr

/-- The candidate locations of `_find_notes_database`, in probe order. -/
def defaultNotesPaths (home : String) : List String :=
  [home ++ "/Library/Group Containers/group.com.apple.notes/NoteStore.sqlite",
   home ++ "/Library/Containers/com.apple.Notes/Data/Library/Notes/NotesV7.storedata",
   home ++ "/Library/Group Containers/group.com.apple.notes/NotesV1.storedata"]

/-- `NotesReader._find_notes_database` over a filesystem-existence oracle
`fs`: the first existing candidate. -/
def findNotesDatabase (fs : String → Bool) (home : String) : Option String :=
  (defaultNotesPaths home).find? fs

/-- `NotesReader.load_data`.

* `fs` is the filesystem-existence oracle (`Path.exists`), `home` the user's
  home directory, `tz` the local-time UTC offset in seconds.
* `dbAt` gives the table contents of the database file at a path, `none`
  standing for a file whose open/query fails with `sqlite3.Error`
  (`sqlite3.connect` defers real I/O, so storage errors surface at
  `cursor.execute`, inside the `try`).
* `notesDbPath`/`maxCount`/`folderFilter` are the call parameters
  (`max_count` defaults to `-1`, `folder_filter` to `None`).

An explicitly supplied path is used only when truthy (a non-empty string);
otherwise auto-detection runs.  A missing path raises `FileNotFoundError`
before any connection exists.  After `connect`, the only `conn.close()` is
the one on the success path: the `except` clauses re-raise without closing. -/
def loadData (cfg : Config) (home : String) (fs : String → Bool)
    (dbAt : String → Option NotesDB) (tz : Int)
    (notesDbPath : Option String) (maxCount : Int) (folderFilter : Option String) :
    LoadResult :=
  let dbPath : Option String :=
    match notesDbPath with
    | some p => if p ≠ "" then some p else findNotesDatabase fs home
    | none => findNotesDatabase fs home
  match dbPath with
  | none => ⟨.error .fileNotFound, false, false⟩
  | some p =>
    if fs p then
      match dbAt p with
      | none => ⟨.error .sqliteError, true, false⟩
      | some db =>
        match queryRows db folderFilter maxCount with
        | .error _ => ⟨.error .sqliteError, true, false⟩
        | .ok rows =>
          match processRows cfg tz rows with
          | .error _ => ⟨.error .unexpectedError, true, false⟩
          | .ok docs => ⟨.ok docs, true, true⟩
    else ⟨.error .fileNotFound, false, false⟩

/-! ### Concrete fixtures used by the witnesses and counterexamples -/

/-- Bytes of an ASCII string (fixture helper). -/
def asciiBytes (s : String) : List Nat := s.data.map Char.toNat

/-- Two-note database: the first note carries a truthy TEXT creation date
(`'garbage'`), on which `_format_timestamp` raises `TypeError`; the second
note is perfectly ordinary. -/
def c1Db : NotesDB :=
  { zicnotedata :=
      [⟨.int 1, .text "BadTs", .text "s1", .text "garbage", .int 900, .int 0, .null⟩,
       ⟨.int 2, .text "Good", .text "s2", .int 5, .int 800, .int 0, .null⟩],
    zicnotebody := [], zicfolder := [] }

/-- The second (ordinary) note of `c1Db`, as its query row. -/
def c1GoodRow : QueryRow := ⟨.int 2, .text "Good", .text "s2", .int 5, .int 800, .null, .null⟩

/-- The document the ordinary note of `c1Db` yields on its own. -/
def c1GoodDoc : Doc :=
  { text := "Title: Good\n\ns2", note_id := "2", title := .text "Good",
    source := "Apple Notes", folder := some (.text "Notes"),
    creation_date := some "2001-01-01 00:00:05",
    modification_date := some "2001-01-01 00:13:20", id_ := "note_2" }

/-- A row whose raw body is the non-empty blob `b"<p></p>"` (cleaning to the
empty string) and whose snippet is NULL. -/
def c5EmptyBodyRow : QueryRow :=
  ⟨.int 1, .text "T", .null, .null, .int 5, .blob (asciiBytes "<p></p>"), .null⟩

/-- One-note database for the path fixtures. -/
def simpleDb : NotesDB :=
  { zicnotedata := [⟨.int 1, .text "A", .text "sn", .null, .int 10, .int 0, .null⟩],
    zicnotebody := [], zicfolder := [] }

/-- The document `simpleDb`'s note yields. -/
def simpleDoc : Doc :=
  { text := "Title: A\n\nsn", note_id := "1", title := .text "A",
    source := "Apple Notes", folder := some (.text "Notes"),
    creation_date := some "Unknown",
    modification_date := some "2001-01-01 00:00:10", id_ := "note_1" }

/-- The first default candidate location for home directory `/h`. -/
def c9DefaultPath : String :=
  "/h/Library/Group Containers/group.com.apple.notes/NoteStore.sqlite"

/-- Five eligible notes with pairwise distinct modification dates
(newest: note 5 at 500, then note 2 at 400). -/
def c6Db : NotesDB :=
  { zicnotedata :=
      [⟨.int 1, .text "N1", .text "s1", .null, .int 100, .int 0, .null⟩,
       ⟨.int 2, .text "N2", .text "s2", .null, .int 400, .int 0, .null⟩,
       ⟨.int 3, .text "N3", .text "s3", .null, .int 300, .int 0, .null⟩,
       ⟨.int 4, .text "N4", .text "s4", .null, .int 200, .int 0, .null⟩,
       ⟨.int 5, .text "N5", .text "s5", .null, .int 500, .int 0, .null⟩],
    zicnotebody := [], zicfolder := [] }

def c6Doc5 : Doc :=
  { text := "Title: N5\n\ns5", note_id := "5", title := .text "N5",
    source := "Apple Notes", folder := some (.text "Notes"),
    creation_date := some "Unknown",
    modification_date := some "2001-01-01 00:08:20", id_ := "note_5" }

def c6Doc2 : Doc :=
  { text := "Title: N2\n\ns2", note_id := "2", title := .text "N2",
    source := "Apple Notes", folder := some (.text "Notes"),
    creation_date := some "Unknown",
    modification_date := some "2001-01-01 00:06:40", id_ := "note_2" }

/-- One note in a folder titled `"personal work stuff"`. -/
def c7Db : NotesDB :=
  { zicnotedata := [⟨.int 1, .text "A", .text "sn", .null, .int 10, .int 0, .int 7⟩],
    zicnotebody := [], zicfolder := [⟨.int 7, .text "personal work stuff"⟩] }

/-- One note in a folder titled `"Wook"`, one in `"Wok"`. -/
def c10Db : NotesDB :=
  { zicnotedata :=
      [⟨.int 1, .text "A", .text "sn", .null, .int 20, .int 0, .int 7⟩,
       ⟨.int 2, .text "B", .text "sm", .null, .int 10, .int 0, .int 8⟩],
    zicnotebody := [], zicfolder := [⟨.int 7, .text "Wook"⟩, ⟨.int 8, .text "Wok"⟩] }

/-- A folder filter containing a single-quote character: `Wo'rk`. -/
def quoteFilter : String := "Wo" ++ String.mk [squot] ++ "rk"

/-- The comment-injection filter `%'--`: the `'` closes the LIKE literal at
`'%%'` and the `--` comments out the rest of the line — the `ORDER BY` and
`LIMIT` clauses. -/
def injFilter : String := "%" ++ String.mk [squot] ++ "--"

/-- Three eligible notes in one folder; table-scan order 1, 2, 3 differs
from modification order 2, 3, 1. -/
def c6InjDb : NotesDB :=
  { zicnotedata :=
      [⟨.int 1, .text "N1", .text "s1", .null, .int 100, .int 0, .int 7⟩,
       ⟨.int 2, .text "N2", .text "s2", .null, .int 300, .int 0, .int 7⟩,
       ⟨.int 3, .text "N3", .text "s3", .null, .int 200, .int 0, .int 7⟩],
    zicnotebody := [], zicfolder := [⟨.int 7, .text "Fold"⟩] }

/-- The records the injected run returns: all three rows, in table-scan
order (the injected comment removed the `ORDER BY` as well). -/
def c6InjDocs : List Doc :=
  [{ text := "Title: N1\n\ns1", note_id := "1", title := .text "N1",
     source := "Apple Notes", folder := some (.text "Fold"),
     creation_date := some "Unknown",
     modification_date := some "2001-01-01 00:01:40", id_ := "note_1" },
   { text := "Title: N2\n\ns2", note_id := "2", title := .text "N2",
     source := "Apple Notes", folder := some (.text "Fold"),
     creation_date := some "Unknown",
     modification_date := some "2001-01-01 00:05:00", id_ := "note_2" },
   { text := "Title: N3\n\ns3", note_id := "3", title := .text "N3",
     source := "Apple Notes", folder := some (.text "Fold"),
     creation_date := some "Unknown",
     modification_date := some "2001-01-01 00:03:20", id_ := "note_3" }]

/-- A row whose creation date is the double `1e30` (the value SQLite stores
for that REAL): far beyond the platform `time_t`, so `fromtimestamp` raises
an uncaught `OverflowError`. -/
def c1OverflowRow : QueryRow :=
  ⟨.int 3, .text "Huge", .text "s3", .real 1000000000000000019884624838656,
   .int 1, .null, .null⟩

/-! ### Between-pass invariants of the cleaning pipeline

These predicates characterise the strings the cleaning passes emit; they are
what makes a second cleaning pass a no-op on ampersand-free input. -/

/-- Every `<` is immediately followed by `>`, or has no `>` anywhere after
it (established by the strip-all-tags pass; under it all three tag
substitutions are no-ops). -/
def TagInv (l : List Char) : Prop :=
  ∀ l1 l2, l = l1 ++ '<' :: l2 → l2.head? = some '>' ∨ '>' ∉ l2

/-- After every newline, the following whitespace run either contains no
newline at all, or starts with exactly one more newline and then contains
no further newline (established by the blank-line collapse; under it that
pass is a no-op). -/
def NlInv (l : List Char) : Prop :=
  ∀ l1 l2, l = l1 ++ '\n' :: l2 → lastNlIdx l2 = none ∨ lastNlIdx l2 = some 0

/-- No tab characters and no two adjacent spaces (established by the
space-collapsing pass; under it that pass is a no-op). -/
def SpInv (l : List Char) : Prop :=
  Char.ofNat 9 ∉ l ∧ ∀ l1 l2, l = l1 ++ ' ' :: ' ' :: l2 → False

/-! ## Theorems about the claims -/

/-- C8: for the raw body `"<p>Hello</p><p>World</p>"` the markup-stripping
operation returns exactly `"Hello\n\nWorld"` — the two block separators
collapse to one blank line. -/
theorem C8_theorem : cleanHtmlContent "<p>Hello</p><p>World</p>" = "Hello\n\nWorld" := by
  decide

/-- C2 counterexample: for the timestamp input `0` the formatter returns
`"Unknown"`, not `"2001-01-01 00:00:00"`: `0` is falsy in Python, so
`if not timestamp` takes the `"Unknown"` branch before any conversion
(evaluated at UTC; the falsy branch never consults the timezone). -/
theorem C2_counterexample :
    formatTimestampV 0 (SQLValue.int 0) = Except.ok "Unknown" ∧
    formatTimestampV 0 (SQLValue.int 0) ≠ Except.ok "2001-01-01 00:00:00" ∧
    formatTimestampV 0 (SQLValue.int 1) = Except.ok "2001-01-01 00:00:01" := by
  decide

/-- C2 (amended): for the timestamp input `0` (integer or float) the
formatter returns `"Unknown"`, whatever the local timezone: `0` is treated
as a falsy/absent value, not as the reference-epoch instant. -/
theorem C2_theorem (tz : Int) :
    formatTimestampV tz (SQLValue.int 0) = Except.ok "Unknown" ∧
    formatTimestampV tz (SQLValue.real 0) = Except.ok "Unknown" := by
  exact ⟨rfl, rfl⟩

theorem C2_witness :
    formatTimestampV 0 (SQLValue.int 0) = Except.ok "Unknown" ∧
    formatTimestampV 0 (SQLValue.real 0) = Except.ok "Unknown" :=
  C2_theorem 0

/-- C3 counterexample: a run whose query fails on a valid, existing path
(`dbAt` reports a storage error at `cursor.execute`) opens the connection
and raises without ever closing it — an exit path with the handle left
open. -/
theorem C3_counterexample :
    loadData ⟨true, true⟩ "/h" (fun p => p = "db") (fun _ => none) 0 (some "db") (-1) none =
      ⟨Except.error LoadErr.sqliteError, true, false⟩ := by
  decide

/-- C3 (amended): the handle is closed exactly on the normal-return exit
path; every raising path after the connection is opened (query error,
row-processing error) leaves the handle open — `load_data` has no
`finally`/`with`, and its `except` clauses re-raise without closing. -/
theorem C3_theorem (cfg : Config) (home : String) (fs : String → Bool)
    (dbAt : String → Option NotesDB) (tz : Int) (path : Option String)
    (mc : Int) (ff : Option String) :
    ((loadData cfg home fs dbAt tz path mc ff).connClosed = true ↔
      ∃ docs, (loadData cfg home fs dbAt tz path mc ff).result = Except.ok docs) := by
  unfold loadData
  dsimp only
  split
  · simp
  · split
    · split
      · simp
      · split
        · simp
        · split
          · simp
          · simp
    · simp

theorem C3_witness :
    (loadData ⟨true, true⟩ "/h" (fun p => p = "db") (fun _ => some simpleDb) 0
        (some "db") (-1) none).connClosed = true ↔
      ∃ docs, (loadData ⟨true, true⟩ "/h" (fun p => p = "db") (fun _ => some simpleDb) 0
        (some "db") (-1) none).result = Except.ok docs :=
  C3_theorem ⟨true, true⟩ "/h" (fun p => p = "db") (fun _ => some simpleDb) 0
    (some "db") (-1) none

/-- C9 counterexample: the explicitly supplied path `""` does not exist on
the filesystem, yet the call does not raise source-not-found: `""` is falsy,
so `if notes_db_path:` silently switches to auto-detection, which here finds
a default-location database and returns its records. -/
theorem C9_counterexample :
    (fun p => p = c9DefaultPath) "" = false ∧
    loadData ⟨true, true⟩ "/h" (fun p => p = c9DefaultPath)
        (fun p => if p = c9DefaultPath then some simpleDb else none) 0
        (some "") (-1) none =
      ⟨Except.ok [simpleDoc], true, true⟩ := by
  decide

/-- C9 (amended): for every *non-empty* explicitly supplied path that does
not exist, the call raises the source-not-found error before any connection
is opened (the empty-string path is falsy and triggers auto-detection
instead). -/
theorem C9_theorem (cfg : Config) (home : String) (fs : String → Bool)
    (dbAt : String → Option NotesDB) (tz : Int) (p : String) (mc : Int)
    (ff : Option String) (h1 : p ≠ "") (h2 : fs p = false) :
    loadData cfg home fs dbAt tz (some p) mc ff =
      ⟨Except.error LoadErr.fileNotFound, false, false⟩ := by
  unfold loadData
  simp [h1, h2]

theorem C9_witness :
    ("/nope.sqlite" ≠ "") ∧
    loadData ⟨true, true⟩ "/h" (fun _ => false) (fun _ => none) 0
        (some "/nope.sqlite") (-1) none =
      ⟨Except.error LoadErr.fileNotFound, false, false⟩ :=
  ⟨by decide, C9_theorem ⟨true, true⟩ "/h" (fun _ => false) (fun _ => none) 0
    "/nope.sqlite" (-1) none (by decide) rfl⟩

/-- C1 counterexample: in a two-row run, a failure while processing the
first row (a truthy TEXT creation date makes `_format_timestamp` raise
`TypeError`, outside the body-decoding `try`) aborts the whole extraction
with the generic processing error — even though the second row on its own
produces a record.  Likewise, a REAL creation date holding the double
`1e30` — beyond the platform `time_t` — makes `fromtimestamp` raise an
`OverflowError` that `except (ValueError, OSError)` does not catch, and the
loop body raises. -/
theorem C1_counterexample :
    (loadData ⟨true, true⟩ "/h" (fun p => p = "db") (fun _ => some c1Db) 0
        (some "db") (-1) none).result = Except.error LoadErr.unexpectedError ∧
    processRow ⟨true, true⟩ 0 c1GoodRow = Except.ok (some c1GoodDoc) ∧
    processRow ⟨true, true⟩ 0 c1OverflowRow = Except.error () := by
  decide

/-- C5 counterexample: a row with a non-empty raw body (the blob
`b"<p></p>"`, which cleans to the empty string) and an empty snippet
produces zero records, although the claim promises exactly one record for
every row with a non-empty body. -/
theorem C5_counterexample :
    truthy c5EmptyBodyRow.content_data = true ∧
    processRows ⟨true, true⟩ 0 [c5EmptyBodyRow] = Except.ok [] := by
  decide

/-- C10: the folder filter is spliced verbatim into the SQL text.
(1) On a perfectly valid database (whose unfiltered run succeeds), the
filter `Wo'rk` — one single-quote character — breaks the statement's lexing
and the run raises the storage-access error.
(2) Filter `W%k` returns the note in folder `"Wook"` although `"Wook"` does
not contain `"W%k"` as a literal substring (the `%` acts as a LIKE
wildcard).
(3) Filter `W_k` returns the note in folder `"Wok"` although `"Wok"` does
not contain `"W_k"` as a literal substring (the `_` acts as a LIKE
wildcard). -/
theorem C10_theorem :
    ((loadData ⟨true, true⟩ "/h" (fun p => p = "db") (fun _ => some c10Db) 0
        (some "db") (-1) none).result.isOk = true) ∧
    (loadData ⟨true, true⟩ "/h" (fun p => p = "db") (fun _ => some c10Db) 0
        (some "db") (-1) (some quoteFilter) =
      ⟨Except.error LoadErr.sqliteError, true, false⟩) ∧
    ((loadData ⟨true, true⟩ "/h" (fun p => p = "db") (fun _ => some c10Db) 0
        (some "db") (-1) (some "W%k")).result =
      Except.ok
        [{ text := "Title: A\n\nsn", note_id := "1", title := .text "A",
           source := "Apple Notes", folder := some (.text "Wook"),
           creation_date := some "Unknown",
           modification_date := some "2001-01-01 00:00:20", id_ := "note_1" },
         { text := "Title: B\n\nsm", note_id := "2", title := .text "B",
           source := "Apple Notes", folder := some (.text "Wok"),
           creation_date := some "Unknown",
           modification_date := some "2001-01-01 00:00:10", id_ := "note_2" }] ∧
      ¬ ("W%k".data <:+: "Wook".data)) ∧
    ((loadData ⟨true, true⟩ "/h" (fun p => p = "db") (fun _ => some c10Db) 0
        (some "db") (-1) (some "W_k")).result =
      Except.ok
        [{ text := "Title: B\n\nsm", note_id := "2", title := .text "B",
           source := "Apple Notes", folder := some (.text "Wok"),
           creation_date := some "Unknown",
           modification_date := some "2001-01-01 00:00:10", id_ := "note_2" }] ∧
      ¬ ("W_k".data <:+: "Wok".data)) := by
  decide

/-- Helper: a quote-free literal body followed by a closing quote (and a
remainder that does not immediately re-open the literal) lexes to itself
with exactly that remainder left over. -/
theorem sqlLexQuoted_closed : ∀ (l : List Char), squot ∉ l → ∀ (t : List Char),
    t.head? ≠ some squot → sqlLexQuoted (l ++ squot :: t) = some (l, t) := by
  intro l
  induction l with
  | nil =>
    intro _ t ht
    simp only [List.nil_append]
    cases t with
    | nil => rfl
    | cons c2 r2 =>
      have hc2 : c2 ≠ squot := by
        intro h
        exact ht (by rw [h]; rfl)
      show (if c2 = squot then (sqlLexQuoted r2).map (fun p => (squot :: p.1, p.2))
            else some ([], c2 :: r2)) = some ([], c2 :: r2)
      rw [if_neg hc2]
  | cons c l' ih =>
    intro hn t ht
    have hc : c ≠ squot := fun h => hn (by simp [h])
    simp only [List.cons_append]
    unfold sqlLexQuoted
    rw [if_neg hc, ih (fun h => hn (List.mem_cons_of_mem _ h)) t ht]
    rfl

/-- Helper: for a quote-free non-empty filter, the spliced fragment lexes as
one literal whose remainder is exactly the appended tail, so the plan is
the clean one: pattern `%filter%`, `ORDER BY` intact, `LIMIT` exactly for a
positive maximum. -/
theorem buildPlan_clean (f : String) (hne : f ≠ "") (hq : squot ∉ f.data) (mc : Int) :
    buildPlan (some f) mc =
      Except.ok ⟨some (String.mk ('%' :: f.data ++ ['%'])), true, 0 < mc⟩ := by
  unfold buildPlan
  dsimp only
  rw [if_pos hne]
  unfold classifySplice
  dsimp only
  have hnq : squot ∉ '%' :: f.data ++ ['%'] := by
    intro h
    rcases List.mem_cons.mp h with h | h
    · exact absurd h.symm (by decide)
    · rcases List.mem_append.mp h with h | h
      · exact hq h
      · simp at h
        exact absurd h.symm (by decide)
  have hhd : (spliceTail mc).head? ≠ some squot := by
    have h1 : (spliceTail mc).head? = some ' ' := rfl
    rw [h1]
    decide
  have hlex := sqlLexQuoted_closed ('%' :: f.data ++ ['%']) hnq (spliceTail mc) hhd
  rw [show ('%' :: f.data ++ ['%', squot] ++ spliceTail mc)
        = (('%' :: f.data ++ ['%']) ++ squot :: spliceTail mc) by simp, hlex]
  dsimp only
  rw [if_pos rfl]

/-- Helper: a non-positive maximum appends no `LIMIT`, so every plan the
splice classification emits leaves the limit flag off. -/
theorem classify_neg_limited (f : String) (p : String) (o l : Bool)
    (hc : classifySplice f (-1) = SpliceShape.run p o l) : l = false := by
  unfold classifySplice at hc
  dsimp only at hc
  rcases hq : sqlLexQuoted ('%' :: f.data ++ ['%', squot] ++ spliceTail (-1)) with
    _ | ⟨content, rest⟩
  · rw [hq] at hc
    exact absurd hc (by simp)
  · rw [hq] at hc
    dsimp only at hc
    by_cases hr : rest = spliceTail (-1)
    · rw [if_pos hr] at hc
      rw [SpliceShape.run.injEq] at hc
      rw [← hc.2.2]
      decide
    · rw [if_neg hr] at hc
      rcases ht : sqlLexTail (rest.length + 1) rest with _ | toks
      · rw [ht] at hc
        exact absurd hc (by simp)
      · rw [ht] at hc
        dsimp only at hc
        by_cases h0 : toks = []
        · rw [if_pos h0] at hc
          rw [SpliceShape.run.injEq] at hc
          exact hc.2.2.symm
        · rw [if_neg h0] at hc
          by_cases h1 : toks = orderToks
          · rw [if_pos h1] at hc
            rw [SpliceShape.run.injEq] at hc
            exact hc.2.2.symm
          · rw [if_neg h1] at hc
            exact absurd hc (by simp)

/-- C6 counterexample: a positive maximum does not cap the row count for
every run — the folder filter `%'--` closes the LIKE literal (as `'%%'`)
and its `--` comments out the rest of the line, `ORDER BY` and `LIMIT`
included, so with `max_count = 2` and three eligible rows the statement
still executes and all three records come back, in table-scan order rather
than newest-first (behaviour verified against `sqlite3`). -/
theorem C6_counterexample :
    (0 : Int) < 2 ∧
    (loadData ⟨true, true⟩ "/h" (fun p => p = "db") (fun _ => some c6InjDb) 0
        (some "db") 2 (some injFilter)).result = Except.ok c6InjDocs ∧
    ¬ (c6InjDocs.length ≤ (2 : Int).toNat) := by
  decide

/-- C6 (amended): with `max_count = 2` and five eligible rows (distinct
modification dates), exactly the two most-recently-modified rows' records
come back, in newest-first order; for a folder filter that is absent or
free of quote characters, a positive maximum caps the row count at the
maximum; and a non-positive maximum behaves exactly like the
absent-maximum default `-1` (no limit).  The original claim's unqualified
cap is refuted by `C6_counterexample`: a quote-and-comment filter removes
the `LIMIT` clause itself. -/
theorem C6_theorem :
    ((loadData ⟨true, true⟩ "/h" (fun p => p = "db") (fun _ => some c6Db) 0
        (some "db") 2 none).result = Except.ok [c6Doc5, c6Doc2]) ∧
    (∀ (db : NotesDB) (ff : Option String) (mc : Int) (rows : List QueryRow),
      0 < mc → (ff = none ∨ ∃ s, ff = some s ∧ squot ∉ s.data) →
      queryRows db ff mc = Except.ok rows → rows.length ≤ mc.toNat) ∧
    (∀ (db : NotesDB) (ff : Option String) (mc : Int), mc ≤ 0 →
      queryRows db ff mc = queryRows db ff (-1)) := by
  refine ⟨by decide, ?_, ?_⟩
  · intro db ff mc rows hmc hff h
    have hplan : ∃ pat, buildPlan ff mc = Except.ok ⟨pat, true, 0 < mc⟩ := by
      rcases hff with rfl | ⟨s, rfl, hs⟩
      · exact ⟨none, rfl⟩
      · by_cases hse : s = ""
        · refine ⟨none, ?_⟩
          subst hse
          unfold buildPlan
          dsimp only
          rw [if_neg (by simp)]
        · exact ⟨some (String.mk ('%' :: s.data ++ ['%'])), buildPlan_clean s hse hs mc⟩
    obtain ⟨pat, hp⟩ := hplan
    unfold queryRows at h
    rw [hp] at h
    dsimp only at h
    rw [if_pos (decide_eq_true hmc)] at h
    cases h
    simp [List.length_take]
  · intro db ff mc hmc
    have hst : spliceTail mc = spliceTail (-1) := by
      unfold spliceTail
      rw [if_neg (by omega), if_neg (by decide)]
    have hd1 : decide (0 < mc) = false := by
      simp only [decide_eq_false_iff_not]
      omega
    have hd2 : decide ((0 : Int) < -1) = false := by decide
    have hbp : buildPlan ff mc = buildPlan ff (-1) := by
      unfold buildPlan
      cases ff with
      | none => rw [hd1, hd2]
      | some f =>
        dsimp only
        by_cases hf : f ≠ ""
        · rw [if_pos hf, if_pos hf]
          unfold classifySplice
          rw [hst, hd1, hd2]
        · rw [if_neg hf, if_neg hf, hd1, hd2]
    unfold queryRows
    rw [hbp]
    rcases hb : buildPlan ff (-1) with e | plan
    · rfl
    · have hlim : plan.limited = false := by
        unfold buildPlan at hb
        rcases ff with _ | f
        · dsimp only at hb
          rw [Except.ok.injEq] at hb
          rw [← hb]
          exact hd2
        · dsimp only at hb
          by_cases hf : f ≠ ""
          · rw [if_pos hf] at hb
            rcases hcs : classifySplice f (-1) with _ | ⟨p, o, l⟩
            · rw [hcs] at hb
              exact absurd hb (by simp)
            · rw [hcs] at hb
              dsimp only at hb
              rw [Except.ok.injEq] at hb
              rw [← hb]
              exact classify_neg_limited f p o l hcs
          · rw [if_neg hf] at hb
            rw [Except.ok.injEq] at hb
            rw [← hb]
            exact hd2
      dsimp only
      rw [hlim]
      rfl

theorem C6_witness :
    ((0 : Int) < 1) ∧
    ((none : Option String) = none ∨ ∃ s, (none : Option String) = some s ∧ squot ∉ s.data) ∧
    queryRows c6Db none 1 =
      Except.ok [⟨.int 5, .text "N5", .text "s5", .null, .int 500, .null, .null⟩] ∧
    [(⟨.int 5, .text "N5", .text "s5", .null, .int 500, .null, .null⟩ : QueryRow)].length ≤
      (1 : Int).toNat :=
  ⟨by decide, Or.inl rfl, by decide,
    C6_theorem.2.1 c6Db none 1 [⟨.int 5, .text "N5", .text "s5", .null, .int 500, .null, .null⟩]
      (by decide) (Or.inl rfl) (by decide)⟩

/-- Helper: the only way the body of the row loop raises is that
`_format_timestamp` raised on one of the row's two date cells. -/
theorem processRow_error (cfg : Config) (tz : Int) (r : QueryRow)
    (h : processRow cfg tz r = Except.error ()) :
    formatTimestampV tz r.creation_date = Except.error () ∨
    formatTimestampV tz r.modification_date = Except.error () := by
  unfold processRow at h
  dsimp only at h
  split at h
  · exact absurd h (by simp)
  · split at h
    · rename_i heq
      left
      split at heq
      · rcases hf : formatTimestampV tz r.creation_date with e | s
        · cases e; rfl
        · rw [hf] at heq; exact absurd heq (by simp [Except.map])
      · exact absurd heq (by simp)
    · split at h
      · rename_i heq
        right
        split at heq
        · rcases hf : formatTimestampV tz r.modification_date with e | s
          · cases e; rfl
          · rw [hf] at heq; exact absurd heq (by simp [Except.map])
        · exact absurd heq (by simp)
      · exact absurd h (by simp)

/-- C1 (amended): a failure while decoding or cleaning a single row's body
never aborts the extraction — it is caught inside the row and falls back to
the snippet (or the row is skipped).  What aborts a run is a failure
*outside* that inner `try`: whenever every row's date cells are values the
timestamp formatter accepts (`.isOk`, i.e. absent or numeric), the whole
row loop succeeds, regardless of every row's body. -/
theorem C1_theorem (cfg : Config) (tz : Int) (rows : List QueryRow)
    (h : ∀ r ∈ rows, (formatTimestampV tz r.creation_date).isOk = true ∧
                     (formatTimestampV tz r.modification_date).isOk = true) :
    ∃ docs, processRows cfg tz rows = Except.ok docs := by
  induction rows with
  | nil => exact ⟨[], rfl⟩
  | cons r rs ih =>
    obtain ⟨h1, h2⟩ := h r (by simp)
    obtain ⟨ds, hds⟩ := ih (fun x hx => h x (by simp [hx]))
    rcases hr : processRow cfg tz r with e | d
    · cases e
      rcases processRow_error cfg tz r hr with hf | hf
      · rw [hf] at h1; exact absurd h1 (by simp [Except.isOk, Except.toBool])
      · rw [hf] at h2; exact absurd h2 (by simp [Except.isOk, Except.toBool])
    · exact ⟨d.toList ++ ds, by unfold processRows; rw [hr, hds]⟩

theorem C1_witness :
    (∀ r ∈ [c1GoodRow, c5EmptyBodyRow],
        (formatTimestampV 0 r.creation_date).isOk = true ∧
        (formatTimestampV 0 r.modification_date).isOk = true) ∧
    ∃ docs, processRows ⟨true, true⟩ 0 [c1GoodRow, c5EmptyBodyRow] = Except.ok docs :=
  ⟨by decide, C1_theorem ⟨true, true⟩ 0 [c1GoodRow, c5EmptyBodyRow] (by decide)⟩

/-- Helper: a completed row-loop body skips (`continue`) exactly when the
row's extracted content is falsy. -/
theorem processRow_none_iff (cfg : Config) (tz : Int) (r : QueryRow) (d : Option Doc)
    (h : processRow cfg tz r = Except.ok d) :
    (d = none ↔ truthy (rowContent r) = false) := by
  unfold processRow at h
  dsimp only at h
  split at h
  · rename_i hc
    cases h
    simp only [Bool.not_eq_true] at hc
    simp [hc]
  · rename_i hc
    simp only [Decidable.not_not] at hc
    split at h
    · exact absurd h (by simp)
    · split at h
      · exact absurd h (by simp)
      · cases h
        simp [hc]

/-- C5 (amended): in a run whose row loop completes, each row whose
extracted content (cleaned body text, else the snippet fallback) is
non-empty produces exactly one record, each row whose extracted content is
empty produces zero, records + empty rows = rows, and hence the number of
records is at most the number of rows. -/
theorem C5_theorem (cfg : Config) (tz : Int) (rows : List QueryRow) (docs : List Doc)
    (h : processRows cfg tz rows = Except.ok docs) :
    docs.length = (rows.filter (fun r => truthy (rowContent r))).length ∧
    docs.length + (rows.filter (fun r => ! truthy (rowContent r))).length = rows.length ∧
    docs.length ≤ rows.length := by
  induction rows generalizing docs with
  | nil =>
    unfold processRows at h
    cases h
    simp
  | cons r rs ih =>
    unfold processRows at h
    rcases hr : processRow cfg tz r with e | d
    · rw [hr] at h; exact absurd h (by simp)
    rw [hr] at h
    rcases hrs : processRows cfg tz rs with e | ds
    · rw [hrs] at h; exact absurd h (by simp)
    rw [hrs] at h
    cases h
    obtain ⟨ih1, ih2, ih3⟩ := ih ds hrs
    have hiff := processRow_none_iff cfg tz r d hr
    cases d with
    | none =>
      have hskip : truthy (rowContent r) = false := hiff.mp rfl
      refine ⟨?_, ?_, ?_⟩ <;> simp [List.filter_cons, hskip, ih1] <;> omega
    | some doc =>
      have hkeep : truthy (rowContent r) = true := by
        rcases hb : truthy (rowContent r)
        · exact absurd (hiff.mpr hb) (by simp)
        · rfl
      refine ⟨?_, ?_, ?_⟩ <;> simp [List.filter_cons, hkeep, ih1] <;> omega

theorem C5_witness :
    processRows ⟨true, true⟩ 0 [c1GoodRow, c5EmptyBodyRow] = Except.ok [c1GoodDoc] ∧
    ([c1GoodDoc].length =
      ([c1GoodRow, c5EmptyBodyRow].filter (fun r => truthy (rowContent r))).length ∧
    [c1GoodDoc].length +
      ([c1GoodRow, c5EmptyBodyRow].filter (fun r => ! truthy (rowContent r))).length =
      [c1GoodRow, c5EmptyBodyRow].length ∧
    [c1GoodDoc].length ≤ [c1GoodRow, c5EmptyBodyRow].length) :=
  ⟨by decide, C5_theorem ⟨true, true⟩ 0 [c1GoodRow, c5EmptyBodyRow] [c1GoodDoc] (by decide)⟩

/-- Helper: `likeMatchF` does not depend on the fuel once the fuel exceeds
the combined pattern/input length. -/
theorem likeMatchF_congr : ∀ (f g : Nat) (p s : List Char),
    p.length + s.length < f → p.length + s.length < g →
    likeMatchF f p s = likeMatchF g p s := by
  intro f
  induction f with
  | zero => intro g p s hf _; omega
  | succ f ih =>
    intro g p s hf hg
    cases g with
    | zero => omega
    | succ g =>
      simp only [likeMatchF]
      cases p with
      | nil => rfl
      | cons c ps =>
        dsimp only
        by_cases h1 : c = '%'
        · subst h1
          rw [if_pos rfl, if_pos rfl]
          have e1 : likeMatchF f ps s = likeMatchF g ps s := by
            apply ih <;> (simp at hf hg ⊢ <;> omega)
          cases s with
          | nil => rw [e1]
          | cons d cs =>
            have e2 : likeMatchF f ('%' :: ps) cs = likeMatchF g ('%' :: ps) cs := by
              apply ih <;> (simp at hf hg ⊢ <;> omega)
            simp only [e1, e2]
        · rw [if_neg h1, if_neg h1]
          by_cases h2 : c = '_'
          · rw [if_pos h2, if_pos h2]
            cases s with
            | nil => rfl
            | cons d cs =>
              have e1 : likeMatchF f ps cs = likeMatchF g ps cs := by
                apply ih <;> (simp at hf hg ⊢ <;> omega)
              simp only [e1]
          · rw [if_neg h2, if_neg h2]
            cases s with
            | nil => rfl
            | cons d cs =>
              have e1 : likeMatchF f ps cs = likeMatchF g ps cs := by
                apply ih <;> (simp at hf hg ⊢ <;> omega)
              simp only [e1]

/-- Helper: the pattern `%` alone matches every string (given fuel). -/
theorem likeMatchF_pct_all : ∀ (s : List Char) (f : Nat),
    s.length + 2 ≤ f → likeMatchF f ['%'] s = true := by
  intro s
  induction s with
  | nil =>
    intro f hf
    match f, hf with
    | f + 1, _ =>
      simp only [likeMatchF, if_pos rfl]
      match f, (by omega : 1 ≤ f) with
      | f + 1, _ => simp [likeMatchF]
  | cons c cs ih =>
    intro f hf
    match f, hf with
    | f + 1, hb =>
      simp only [likeMatchF, if_true]
      rw [ih f (by simp only [List.length_cons] at hb; omega)]
      simp

/-- Helper: one-step unfolding of `likeMatchF` at a leading `%`. -/
theorem likeMatchF_pct_step (fuel : Nat) (ps s : List Char) :
    likeMatchF (fuel + 1) ('%' :: ps) s =
      (likeMatchF fuel ps s ||
        match s with
        | [] => false
        | _ :: cs => likeMatchF fuel ('%' :: ps) cs) := rfl

/-- Helper: one-step unfolding of `likeMatchF` at an ordinary character. -/
theorem likeMatchF_chr_step (fuel : Nat) (c : Char) (ps s : List Char)
    (h1 : c ≠ '%') (h2 : c ≠ '_') :
    likeMatchF (fuel + 1) (c :: ps) s =
      match s with
      | [] => false
      | d :: cs => decide (asciiLower c = asciiLower d ∧ likeMatchF fuel ps cs = true) := by
  simp only [likeMatchF]
  rw [if_neg h1, if_neg h2]

/-- Helper: a wildcard-free pattern followed by `%` matches exactly the
strings beginning (ASCII-case-insensitively) with that pattern. -/
theorem likeMatchF_anchor : ∀ (w : List Char), (∀ c ∈ w, c ≠ '%' ∧ c ≠ '_') →
    ∀ (s : List Char) (fuel : Nat), w.length + s.length + 2 ≤ fuel →
    (likeMatchF fuel (w ++ ['%']) s = true ↔
      ∃ s2 s3, s = s2 ++ s3 ∧ s2.map asciiLower = w.map asciiLower) := by
  intro w
  induction w with
  | nil =>
    intro _ s fuel hb
    simp only [List.nil_append, List.map_nil]
    constructor
    · intro _
      exact ⟨[], s, rfl, rfl⟩
    · intro _
      exact likeMatchF_pct_all s fuel (by omega)
  | cons c w' ih =>
    intro hw s fuel hb
    obtain ⟨hc1, hc2⟩ := hw c (by simp)
    have hw' : ∀ x ∈ w', x ≠ '%' ∧ x ≠ '_' := fun x hx => hw x (List.mem_cons_of_mem _ hx)
    match fuel, hb with
    | fuel + 1, hb =>
      rw [List.cons_append, likeMatchF_chr_step fuel c (w' ++ ['%']) s hc1 hc2]
      cases s with
      | nil =>
        constructor
        · intro h
          exact absurd h (by simp)
        · rintro ⟨s2, s3, he, hm⟩
          have h2 : s2 = [] := by
            cases s2 with
            | nil => rfl
            | cons a b => exact absurd he (by simp)
          subst h2
          simp at hm
      | cons d cs =>
        have hih := ih hw' cs fuel
          (by simp only [List.length_cons] at hb ⊢; omega)
        constructor
        · intro h
          rw [decide_eq_true_eq] at h
          obtain ⟨hcd, hrec⟩ := h
          obtain ⟨s2, s3, he, hm⟩ := hih.mp hrec
          exact ⟨d :: s2, s3, by simp [he], by simp [hm, hcd]⟩
        · rintro ⟨s2, s3, he, hm⟩
          cases s2 with
          | nil => simp at hm
          | cons e s2' =>
            simp only [List.cons_append, List.cons.injEq] at he
            obtain ⟨rfl, he'⟩ := he
            simp only [List.map_cons, List.cons.injEq] at hm
            obtain ⟨hm1, hm2⟩ := hm
            rw [decide_eq_true_eq]
            exact ⟨hm1.symm, hih.mpr ⟨s2', s3, he', hm2⟩⟩

/-- Helper: a leading `%` matches exactly when some suffix matches the rest
of the pattern. -/
theorem likeMatchF_pct_iff : ∀ (s ps : List Char) (fuel : Nat),
    ps.length + s.length + 2 ≤ fuel →
    (likeMatchF fuel ('%' :: ps) s = true ↔
      ∃ s1 s2, s = s1 ++ s2 ∧ likeMatchF fuel ps s2 = true) := by
  intro s
  induction s with
  | nil =>
    intro ps fuel hb
    match fuel, hb with
    | fuel + 1, hb =>
      rw [likeMatchF_pct_step]
      rw [Bool.or_false]
      have e1 : likeMatchF fuel ps [] = likeMatchF (fuel + 1) ps [] :=
        likeMatchF_congr _ _ _ _ (by simp at hb ⊢; omega) (by simp at hb ⊢; omega)
      rw [e1]
      constructor
      · intro h
        exact ⟨[], [], rfl, h⟩
      · rintro ⟨s1, s2, he, h⟩
        have h1 : s1 = [] := by
          cases s1 with
          | nil => rfl
          | cons a b => exact absurd he (by simp)
        subst h1
        have h2 : s2 = [] := by simpa using he.symm
        subst h2
        exact h
  | cons d cs ih =>
    intro ps fuel hb
    match fuel, hb with
    | fuel + 1, hb =>
      rw [likeMatchF_pct_step]
      rw [show (match d :: cs with
            | [] => false
            | _ :: cs => likeMatchF fuel ('%' :: ps) cs) = likeMatchF fuel ('%' :: ps) cs
          from rfl]
      rw [Bool.or_eq_true]
      have e1 : likeMatchF fuel ps (d :: cs) = likeMatchF (fuel + 1) ps (d :: cs) :=
        likeMatchF_congr _ _ _ _ (by simp at hb ⊢; omega) (by simp at hb ⊢; omega)
      have hih := ih ps fuel (by simp at hb ⊢; omega)
      constructor
      · rintro (h | h)
        · rw [e1] at h
          exact ⟨[], d :: cs, rfl, h⟩
        · obtain ⟨s1, s2, he, hm⟩ := hih.mp h
          have hlen : s2.length ≤ cs.length := by
            have := congrArg List.length he
            simp at this
            omega
          have e2 : likeMatchF fuel ps s2 = likeMatchF (fuel + 1) ps s2 :=
            likeMatchF_congr _ _ _ _ (by simp at hb ⊢; omega) (by simp at hb ⊢; omega)
          rw [e2] at hm
          exact ⟨d :: s1, s2, by simp [he], hm⟩
      · rintro ⟨s1, s2, he, hm⟩
        cases s1 with
        | nil =>
          left
          simp only [List.nil_append] at he
          rw [← he] at hm
          rw [e1]
          exact hm
        | cons e s1' =>
          right
          simp only [List.cons_append, List.cons.injEq] at he
          obtain ⟨-, he'⟩ := he
          apply hih.mpr
          refine ⟨s1', s2, he', ?_⟩
          have hlen : s2.length ≤ cs.length := by
            have := congrArg List.length he'
            simp at this
            omega
          have e2 : likeMatchF fuel ps s2 = likeMatchF (fuel + 1) ps s2 :=
            likeMatchF_congr _ _ _ _ (by simp at hb ⊢; omega) (by simp at hb ⊢; omega)
          rw [e2]
          exact hm

/-- Helper: insertion keeps membership. -/
theorem mem_insertByModDesc {x t : ZNote × SQLValue × SQLValue} :
    ∀ {l}, x ∈ insertByModDesc t l → x = t ∨ x ∈ l := by
  intro l
  induction l with
  | nil =>
    intro h
    simp [insertByModDesc] at h
    exact Or.inl h
  | cons y ys ih =>
    intro h
    unfold insertByModDesc at h
    split at h
    · rcases List.mem_cons.mp h with h | h
      · exact Or.inl h
      · exact Or.inr h
    · rcases List.mem_cons.mp h with h | h
      · exact Or.inr (by simp [h])
      · rcases ih h with h | h
        · exact Or.inl h
        · exact Or.inr (by simp [h])

/-- Helper: the sort is a permutation-style rearrangement; membership is
preserved. -/
theorem mem_sortByModDesc {x : ZNote × SQLValue × SQLValue} :
    ∀ {l}, x ∈ sortByModDesc l → x ∈ l := by
  intro l
  induction l with
  | nil => intro h; simpa [sortByModDesc] using h
  | cons y ys ih =>
    intro h
    unfold sortByModDesc at h
    rcases mem_insertByModDesc h with h | h
    · simp [h]
    · exact List.mem_cons_of_mem _ (ih h)

/-- C7 (amended): when a non-empty folder filter without LIKE
metacharacters (`%`, `_`) or quotes is given, every returned row's folder
title contains the filter as an ASCII-case-insensitive substring (SQLite's
`LIKE` folds ASCII case, so the match is *not* case-sensitive), and rows
whose folder title is NULL are excluded while the filter is active. -/
theorem C7_theorem (db : NotesDB) (f : String) (mc : Int) (rows : List QueryRow)
    (hne : f ≠ "")
    (hcl : ∀ c ∈ f.data, c ≠ '%' ∧ c ≠ '_' ∧ c ≠ squot)
    (h : queryRows db (some f) mc = Except.ok rows) :
    ∀ r ∈ rows, r.folder_name ≠ SQLValue.null ∧
      ∀ s, r.folder_name = SQLValue.text s →
        ∃ s1 s2 s3, s.data = s1 ++ s2 ++ s3 ∧
          s2.map asciiLower = f.data.map asciiLower := by
  have hq : squot ∉ f.data := fun hm => (hcl _ hm).2.2 rfl
  have hbp := buildPlan_clean f hne hq mc
  unfold queryRows at h
  rw [hbp] at h
  dsimp only at h
  rw [Except.ok.injEq] at h
  subst h
  intro r hr
  obtain ⟨t, ht, hpr⟩ := List.mem_map.mp hr
  have hts : t ∈ sortByModDesc ((joinedTriples db).filter
      (whereOk (some (String.mk ('%' :: f.data ++ ['%']))))) := by
    by_cases hm : 0 < mc
    · rw [if_pos (decide_eq_true hm)] at ht
      exact List.mem_of_mem_take ht
    · rw [if_neg (by simp [hm])] at ht
      exact ht
  have htf := mem_sortByModDesc hts
  have hw := (List.mem_filter.mp htf).2
  unfold whereOk at hw
  rw [Bool.and_eq_true] at hw
  have hw2 := hw.2
  subst hpr
  constructor
  · intro hnull
    rw [show (projectRow t).folder_name = t.2.2 from rfl] at hnull
    rw [hnull] at hw2
    exact absurd hw2 (by simp)
  · intro s hs
    rw [show (projectRow t).folder_name = t.2.2 from rfl] at hs
    rw [hs] at hw2
    dsimp only [sqlCastText] at hw2
    unfold sqlLike at hw2
    dsimp only at hw2
    rw [show ('%' :: f.data ++ ['%'] : List Char) = '%' :: (f.data ++ ['%']) by simp] at hw2
    have hfuel : (f.data ++ ['%']).length + s.data.length + 2 ≤
        ('%' :: (f.data ++ ['%'])).length + s.data.length + 1 := by
      simp only [List.length_cons, List.length_append, List.length_nil]
      omega
    obtain ⟨s1, smid, heq, hrest⟩ := (likeMatchF_pct_iff s.data (f.data ++ ['%']) _ hfuel).mp hw2
    have hlen : smid.length ≤ s.data.length := by
      have := congrArg List.length heq
      rw [List.length_append] at this
      omega
    have hwf : ∀ c ∈ f.data, c ≠ '%' ∧ c ≠ '_' := fun c hc => ⟨(hcl c hc).1, (hcl c hc).2.1⟩
    obtain ⟨s2, s3, heq2, hmap⟩ :=
      (likeMatchF_anchor f.data hwf smid
        (('%' :: (f.data ++ ['%'])).length + s.data.length + 1)
        (by simp only [List.length_cons, List.length_append, List.length_nil]; omega)).mp hrest
    exact ⟨s1, s2, s3, by rw [heq, heq2, List.append_assoc], hmap⟩

/-- C7 counterexample: with folder filter `"Work"`, a record from the folder
`"personal work stuff"` is returned — its title does not contain `"Work"`
as a case-sensitive substring, because SQLite's `LIKE` is
ASCII-case-insensitive. -/
theorem C7_counterexample :
    (loadData ⟨true, true⟩ "/h" (fun p => p = "db") (fun _ => some c7Db) 0
        (some "db") (-1) (some "Work")).result =
      Except.ok
        [{ text := "Title: A\n\nsn", note_id := "1", title := .text "A",
           source := "Apple Notes", folder := some (.text "personal work stuff"),
           creation_date := some "Unknown",
           modification_date := some "2001-01-01 00:00:10", id_ := "note_1" }] ∧
    ¬ ("Work".data <:+: "personal work stuff".data) := by
  decide

theorem C7_witness :
    (⟨.int 1, .text "A", .text "sn", .null, .int 10, .null,
        .text "personal work stuff"⟩ : QueryRow).folder_name ≠ SQLValue.null ∧
      ∀ s, (⟨.int 1, .text "A", .text "sn", .null, .int 10, .null,
        .text "personal work stuff"⟩ : QueryRow).folder_name = SQLValue.text s →
        ∃ s1 s2 s3, s.data = s1 ++ s2 ++ s3 ∧
          s2.map asciiLower = "Work".data.map asciiLower :=
  C7_theorem c7Db "Work" (-1)
    [⟨.int 1, .text "A", .text "sn", .null, .int 10, .null, .text "personal work stuff"⟩]
    (by decide) (by decide) (by decide)
    ⟨.int 1, .text "A", .text "sn", .null, .int 10, .null, .text "personal work stuff"⟩
    (by simp)

/-! ### Toward C4: idempotence of the cleaning pipeline on `&`-free input -/

/-- Helper: every character a scan emits comes from the input or from a
replacement (whose characters lie in `S`). -/
theorem reSub_subset (m : List Char → Option (List Char × Nat)) (S : List Char)
    (hm : ∀ l repl n, m l = some (repl, n) → ∀ x ∈ repl, x ∈ S) :
    ∀ (fuel : Nat) (l : List Char) (x : Char), x ∈ reSub m fuel l → x ∈ l ∨ x ∈ S := by
  intro fuel
  induction fuel with
  | zero => intro l x hx; simp [reSub] at hx
  | succ fuel ih =>
    intro l x hx
    cases l with
    | nil => simp [reSub] at hx
    | cons c rest =>
      unfold reSub at hx
      split at hx
      · rename_i repl n hmt
        rcases List.mem_append.mp hx with hx | hx
        · exact Or.inr (hm _ _ _ hmt x hx)
        · rcases ih _ x hx with hx | hx
          · exact Or.inl (List.mem_of_mem_drop hx)
          · exact Or.inr hx
      · rcases List.mem_cons.mp hx with hx | hx
        · simp [hx]
        · rcases ih _ x hx with hx | hx
          · exact Or.inl (List.mem_cons_of_mem _ hx)
          · exact Or.inr hx

/-- Helper: `html.unescape` is the identity on ampersand-free input. -/
theorem unescape_id : ∀ (fuel : Nat) (l : List Char), l.length ≤ fuel → '&' ∉ l →
    reSub charrefSubMatcher fuel l = l := by
  intro fuel
  induction fuel with
  | zero =>
    intro l hf _
    have hl : l = [] := List.length_eq_zero.mp (by omega)
    subst hl
    rfl
  | succ fuel ih =>
    intro l hf ha
    cases l with
    | nil => rfl
    | cons c rest =>
      have hc : c ≠ '&' := fun h => ha (by simp [h])
      unfold reSub
      have hm : charrefSubMatcher (c :: rest) = none := by
        unfold charrefSubMatcher
        split
        · rename_i heq
          exact absurd (List.cons.inj heq).1 hc
        · rfl
      rw [hm, ih rest (by simp at hf; omega) (fun h => ha (List.mem_cons_of_mem _ h))]

/-- Helper: basic structure of `TagInv`. -/
theorem TagInv_nil : TagInv [] := by
  intro l1 l2 h
  exact absurd h (by simp)

theorem TagInv_cons {c : Char} {l : List Char} (hc : c ≠ '<') (h : TagInv l) :
    TagInv (c :: l) := by
  intro l1 l2 heq
  cases l1 with
  | nil => exact absurd (List.cons.inj heq).1 hc
  | cons a l1' =>
    obtain ⟨-, heq'⟩ := List.cons.inj heq
    exact h l1' l2 heq'

theorem TagInv_cons_lt {l : List Char} (h : TagInv l)
    (hh : l.head? = some '>' ∨ '>' ∉ l) : TagInv ('<' :: l) := by
  intro l1 l2 heq
  cases l1 with
  | nil =>
    obtain ⟨-, heq'⟩ := List.cons.inj heq
    subst heq'
    exact hh
  | cons a l1' =>
    obtain ⟨-, heq'⟩ := List.cons.inj heq
    exact h l1' l2 heq'

theorem TagInv_tail {c : Char} {l : List Char} (h : TagInv (c :: l)) : TagInv l :=
  fun l1 l2 heq => h (c :: l1) l2 (by simp [heq])

theorem TagInv_head {l : List Char} (h : TagInv ('<' :: l)) :
    l.head? = some '>' ∨ '>' ∉ l := h [] l rfl

theorem TagInv_drop {l : List Char} (h : TagInv l) : ∀ n, TagInv (l.drop n) := by
  intro n
  induction n generalizing l with
  | zero => simpa using h
  | succ n ih =>
    cases l with
    | nil => exact TagInv_nil
    | cons c l' => exact ih (TagInv_tail h)

theorem TagInv_append_left {P X : List Char} (hp : '<' ∉ P) (h : TagInv X) :
    TagInv (P ++ X) := by
  induction P with
  | nil => simpa using h
  | cons c P' ih =>
    rw [List.cons_append]
    exact TagInv_cons (fun hc => hp (by simp [hc])) (ih (fun hc => hp (by simp [hc])))

/-- Helper: `gtIdx` finds a `>` exactly when there is one. -/
theorem gtIdx_none_iff : ∀ (l : List Char), gtIdx l = none ↔ '>' ∉ l := by
  intro l
  induction l with
  | nil => simp [gtIdx]
  | cons c rest ih =>
    unfold gtIdx
    by_cases hc : c = '>'
    · rw [if_pos hc]
      subst hc
      simp
    · rw [if_neg hc]
      constructor
      · intro h hm
        rcases List.mem_cons.mp hm with hm | hm
        · exact hc hm.symm
        · rcases ho : gtIdx rest with _ | i
          · exact (ih.mp ho) hm
          · rw [ho] at h; exact absurd h (by simp)
      · intro hm
        rcases ho : gtIdx rest with _ | i
        · rfl
        · exact absurd (List.mem_cons_of_mem _ (by
            by_contra hn
            exact absurd ho (by rw [ih.mpr hn]; simp))) hm

theorem gtIdx_some_mem {l : List Char} {i : Nat} (h : gtIdx l = some i) : '>' ∈ l := by
  by_contra hn
  rw [(gtIdx_none_iff l).mpr hn] at h
  exact absurd h (by simp)

/-- Helper: a block-tag-name match starts with a letter. -/
theorem matchBlockName_head {l : List Char} {n : Nat} (h : matchBlockName l = some n) :
    ∃ c r, l = c :: r ∧ c ≠ '>' ∧ c ≠ '/' := by
  cases l with
  | nil => exact absurd h (by simp [matchBlockName])
  | cons c r =>
    refine ⟨c, r, rfl, fun hc => ?_, fun hc => ?_⟩
    · subst hc
      have hz : matchBlockName ('>' :: r) = none := rfl
      rw [hz] at h
      exact Option.noConfusion h
    · subst hc
      have hz : matchBlockName ('/' :: r) = none := rfl
      rw [hz] at h
      exact Option.noConfusion h

/-- Helper: a closing-tag match implies a `/` head and a later `>`. -/
theorem matchCloseTag_inv {rest : List Char} {n : Nat} (h : matchCloseTag rest = some n) :
    rest.head? = some '/' ∧ '>' ∈ rest := by
  unfold matchCloseTag at h
  split at h
  · rename_i r2
    constructor
    · rfl
    · split at h
      · rename_i k hk
        split at h
        · rename_i hgt
          have hmem : '>' ∈ r2.drop k := List.mem_of_mem_head? (Option.mem_def.mpr hgt)
          exact List.mem_cons_of_mem _ (List.mem_of_mem_drop hmem)
        · exact absurd h (by simp)
      · exact absurd h (by simp)
  · exact absurd h (by simp)

/-- Helper: an opening-tag match implies a non-`>` head and a later `>`. -/
theorem matchOpenTag_inv {rest : List Char} {n : Nat} (h : matchOpenTag rest = some n) :
    (∃ c r, rest = c :: r ∧ c ≠ '>') ∧ '>' ∈ rest := by
  unfold matchOpenTag at h
  split at h
  · rename_i k hk
    obtain ⟨c, r, hcr, hc, -⟩ := matchBlockName_head hk
    split at h
    · rename_i i hi
      exact ⟨⟨c, r, hcr, hc⟩, List.mem_of_mem_drop (gtIdx_some_mem hi)⟩
    · exact absurd h (by simp)
  · exact absurd h (by simp)

/-- Helper: an any-tag match implies a non-`>` head and a later `>`. -/
theorem anyTagMatch_inv {rest : List Char} {n : Nat} (h : anyTagMatch rest = some n) :
    rest.head? ≠ some '>' ∧ '>' ∈ rest := by
  unfold anyTagMatch at h
  split at h
  · exact absurd h (by simp)
  · rename_i hne
    split at h
    · rename_i i hi
      constructor
      · intro hh
        cases rest with
        | nil => exact absurd hh (by simp)
        | cons c r =>
          simp only [List.head?_cons, Option.some.injEq] at hh
          subst hh
          exact hne r rfl
      · exact gtIdx_some_mem hi
    · exact absurd h (by simp)

/-- Helper: under `TagInv`, the closing-block-tag substitution is the
identity. -/
theorem closeTags_id : ∀ (fuel : Nat) (l : List Char), l.length ≤ fuel → TagInv l →
    reSub closeTagMatcher fuel l = l := by
  intro fuel
  induction fuel with
  | zero =>
    intro l hf _
    have hl : l = [] := List.length_eq_zero.mp (by omega)
    subst hl
    rfl
  | succ fuel ih =>
    intro l hf ht
    cases l with
    | nil => rfl
    | cons c rest =>
      unfold reSub
      have hm : closeTagMatcher (c :: rest) = none := by
        unfold closeTagMatcher
        split
        · rename_i r heq
          obtain ⟨rfl, rfl⟩ : c = '<' ∧ rest = r := by
            have := List.cons.inj heq
            exact ⟨this.1, this.2⟩
          rcases hmc : matchCloseTag rest with _ | k
          · rfl
          · obtain ⟨hh, hgt⟩ := matchCloseTag_inv hmc
            rcases TagInv_head ht with hd | hd
            · rw [hh] at hd
              exact absurd (Option.some.inj hd) (by decide)
            · exact absurd hgt hd
        · rfl
      rw [hm, ih rest (by simp at hf; omega) (TagInv_tail ht)]

/-- Helper: under `TagInv`, the opening-block-tag substitution is the
identity. -/
theorem openTags_id : ∀ (fuel : Nat) (l : List Char), l.length ≤ fuel → TagInv l →
    reSub openTagMatcher fuel l = l := by
  intro fuel
  induction fuel with
  | zero =>
    intro l hf _
    have hl : l = [] := List.length_eq_zero.mp (by omega)
    subst hl
    rfl
  | succ fuel ih =>
    intro l hf ht
    cases l with
    | nil => rfl
    | cons c rest =>
      unfold reSub
      have hm : openTagMatcher (c :: rest) = none := by
        unfold openTagMatcher
        split
        · rename_i r heq
          obtain ⟨rfl, rfl⟩ : c = '<' ∧ rest = r := by
            have := List.cons.inj heq
            exact ⟨this.1, this.2⟩
          rcases hmc : matchOpenTag rest with _ | k
          · rfl
          · obtain ⟨⟨d, r2, hdr, hd⟩, hgt⟩ := matchOpenTag_inv hmc
            rcases TagInv_head ht with hh | hh
            · rw [hdr] at hh
              simp only [List.head?_cons, Option.some.injEq] at hh
              exact absurd hh hd
            · exact absurd hgt hh
        · rfl
      rw [hm, ih rest (by simp at hf; omega) (TagInv_tail ht)]

/-- Helper: under `TagInv`, the strip-all-tags substitution is the
identity. -/
theorem stripTags_id : ∀ (fuel : Nat) (l : List Char), l.length ≤ fuel → TagInv l →
    reSub anyTagMatcher fuel l = l := by
  intro fuel
  induction fuel with
  | zero =>
    intro l hf _
    have hl : l = [] := List.length_eq_zero.mp (by omega)
    subst hl
    rfl
  | succ fuel ih =>
    intro l hf ht
    cases l with
    | nil => rfl
    | cons c rest =>
      unfold reSub
      have hm : anyTagMatcher (c :: rest) = none := by
        unfold anyTagMatcher
        split
        · rename_i r heq
          obtain ⟨rfl, rfl⟩ : c = '<' ∧ rest = r := by
            have := List.cons.inj heq
            exact ⟨this.1, this.2⟩
          rcases hmc : anyTagMatch rest with _ | k
          · rfl
          · obtain ⟨hh, hgt⟩ := anyTagMatch_inv hmc
            rcases TagInv_head ht with hd | hd
            · exact absurd hd hh
            · exact absurd hgt hd
        · rfl
      rw [hm, ih rest (by simp at hf; omega) (TagInv_tail ht)]

/-- Helper: the strip-all-tags matcher always replaces with nothing. -/
theorem anyTagMatcher_repl {l repl : List Char} {n : Nat}
    (h : anyTagMatcher l = some (repl, n)) : repl = [] := by
  unfold anyTagMatcher at h
  split at h
  · rcases ha : anyTagMatch _ with _ | k
    · rw [ha] at h
      exact absurd h (by simp)
    · rw [ha] at h
      simp at h
      exact h.1
  · exact absurd h (by simp)

/-- Helper: the strip-all-tags pass never emits characters outside its
input. -/
theorem stripTags_subset : ∀ (fuel : Nat) (l : List Char) (x : Char),
    x ∈ reSub anyTagMatcher fuel l → x ∈ l := by
  intro fuel l x hx
  rcases reSub_subset anyTagMatcher []
      (fun l' repl' n' hsome x hx => by
        rw [anyTagMatcher_repl hsome] at hx
        exact absurd hx (List.not_mem_nil x))
      fuel l x hx with h | h
  · exact h
  · exact absurd h (List.not_mem_nil x)

/-- Helper: the strip-all-tags pass establishes `TagInv`: in its output,
every surviving `<` is immediately followed by `>` or has no `>` after. -/
theorem stripTags_TagInv : ∀ (fuel : Nat) (l : List Char),
    TagInv (reSub anyTagMatcher fuel l) := by
  intro fuel
  induction fuel with
  | zero => intro l; exact TagInv_nil
  | succ fuel ih =>
    intro l
    cases l with
    | nil => exact TagInv_nil
    | cons c rest =>
      unfold reSub
      rcases hm : anyTagMatcher (c :: rest) with _ | ⟨repl, n⟩
      · by_cases hc : c = '<'
        · subst hc
          have hmm : anyTagMatch rest = none := by
            rcases ha : anyTagMatch rest with _ | k
            · rfl
            · have hv : anyTagMatcher ('<' :: rest) = some ([], k + 1) := by
                show Option.map (fun n => (([] : List Char), n + 1)) (anyTagMatch rest) = _
                rw [ha]
                rfl
              rw [hv] at hm
              exact absurd hm (by simp)
          apply TagInv_cons_lt (ih rest)
          unfold anyTagMatch at hmm
          split at hmm
          · -- rest = '>' :: tail: the scan copies the '>'
            rename_i tail
            cases fuel with
            | zero => right; simp [reSub]
            | succ fuel' =>
              left
              unfold reSub
              rw [show anyTagMatcher ('>' :: tail) = none from rfl]
              rfl
          · -- no '>' in rest at all
            split at hmm
            · exact absurd hmm (by simp)
            · rename_i hgt
              right
              intro hmem
              exact (gtIdx_none_iff rest).mp hgt (stripTags_subset fuel rest '>' hmem)
        · exact TagInv_cons hc (ih rest)
      · rw [anyTagMatcher_repl hm]
        exact ih _

/-- Helper: a scan whose matcher never fires at `<` or `>` and whose
replacements contain neither character preserves `TagInv`. -/
theorem reSub_TagInv (m : List Char → Option (List Char × Nat)) (S : List Char)
    (hS : ∀ l repl n, m l = some (repl, n) → ∀ x ∈ repl, x ∈ S)
    (hlt : '<' ∉ S) (hgt : '>' ∉ S)
    (h1 : ∀ rest, m ('<' :: rest) = none)
    (h2 : ∀ rest, m ('>' :: rest) = none) :
    ∀ (fuel : Nat) (l : List Char), TagInv l → TagInv (reSub m fuel l) := by
  intro fuel
  induction fuel with
  | zero => intro l _; exact TagInv_nil
  | succ fuel ih =>
    intro l ht
    cases l with
    | nil => exact TagInv_nil
    | cons c rest =>
      unfold reSub
      rcases hm : m (c :: rest) with _ | ⟨repl, n⟩
      · by_cases hc : c = '<'
        · subst hc
          apply TagInv_cons_lt (ih rest (TagInv_tail ht))
          rcases TagInv_head ht with hh | hh
          · cases rest with
            | nil => right; cases fuel <;> simp [reSub]
            | cons d r2 =>
              simp only [List.head?_cons, Option.some.injEq] at hh
              subst hh
              cases fuel with
              | zero => right; simp [reSub]
              | succ fuel' =>
                left
                unfold reSub
                rw [h2 r2]
                rfl
          · right
            intro hmem
            rcases reSub_subset m S hS fuel rest '>' hmem with hx | hx
            · exact hh hx
            · exact hgt hx
        · exact TagInv_cons hc (ih rest (TagInv_tail ht))
      · apply TagInv_append_left
        · intro hx
          exact hlt (hS _ _ _ hm '<' hx)
        · exact ih _ (TagInv_drop ht n)

/-- Helper: basic structure of `NlInv`. -/
theorem NlInv_nil : NlInv [] := by
  intro l1 l2 h
  exact absurd h (by simp)

theorem NlInv_cons {c : Char} {l : List Char} (hc : c ≠ '\n') (h : NlInv l) :
    NlInv (c :: l) := by
  intro l1 l2 heq
  cases l1 with
  | nil => exact absurd (List.cons.inj heq).1 hc
  | cons a l1' => exact h l1' l2 (List.cons.inj heq).2

theorem NlInv_cons_nl {l : List Char} (h : NlInv l)
    (hh : lastNlIdx l = none ∨ lastNlIdx l = some 0) : NlInv ('\n' :: l) := by
  intro l1 l2 heq
  cases l1 with
  | nil =>
    obtain ⟨-, heq'⟩ := List.cons.inj heq
    subst heq'
    exact hh
  | cons a l1' => exact h l1' l2 (List.cons.inj heq).2

theorem NlInv_tail {c : Char} {l : List Char} (h : NlInv (c :: l)) : NlInv l :=
  fun l1 l2 heq => h (c :: l1) l2 (by simp [heq])

theorem NlInv_head {l : List Char} (h : NlInv ('\n' :: l)) :
    lastNlIdx l = none ∨ lastNlIdx l = some 0 := h [] l rfl

theorem NlInv_drop {l : List Char} (h : NlInv l) : ∀ n, NlInv (l.drop n) := by
  intro n
  induction n generalizing l with
  | zero => simpa using h
  | succ n ih =>
    cases l with
    | nil => exact NlInv_nil
    | cons c l' => exact ih (NlInv_tail h)

/-- Helper: a last-newline index of zero means the head is the only newline
of the leading whitespace run. -/
theorem lastNlIdx_zero {l : List Char} (h : lastNlIdx l = some 0) :
    ∃ l', l = '\n' :: l' ∧ lastNlIdx l' = none := by
  cases l with
  | nil => exact absurd h (by simp [lastNlIdx])
  | cons c rest =>
    unfold lastNlIdx at h
    split at h
    · split at h
      · rename_i i hi
        exact absurd (Option.some.inj h) (by simp)
      · split at h
        · rename_i hsp hr hc
          subst hc
          exact ⟨rest, rfl, hr⟩
        · exact absurd h (by simp)
    · exact absurd h (by simp)

theorem lastNlIdx_nl_none {l : List Char} (h : lastNlIdx l = none) :
    lastNlIdx ('\n' :: l) = some 0 := by
  unfold lastNlIdx
  rw [if_pos (by decide), h]
  simp

theorem lastNlIdx_not_ws {c : Char} (l : List Char) (hc : isPySpaceChar c = false) :
    lastNlIdx (c :: l) = none := by
  unfold lastNlIdx
  rw [if_neg (by simp [hc])]

/-- Helper: a whitespace head that is not a newline passes the last-newline
index through (shifted). -/
theorem lastNlIdx_ws_cons {c : Char} {l : List Char} (hc : isPySpaceChar c = true)
    (hn : c ≠ '\n') (h : lastNlIdx l = none) : lastNlIdx (c :: l) = none := by
  unfold lastNlIdx
  rw [if_pos (by simp [hc]), h]
  simp [hn]

/-- Helper: dropping through the last newline of the leading whitespace run
leaves a run with no newline. -/
theorem lastNlIdx_drop_last : ∀ (l : List Char) (i : Nat), lastNlIdx l = some i →
    lastNlIdx (l.drop (i + 1)) = none := by
  intro l
  induction l with
  | nil => intro i h; exact absurd h (by simp [lastNlIdx])
  | cons c rest ih =>
    intro i h
    unfold lastNlIdx at h
    split at h
    · split at h
      · rename_i j hj
        obtain rfl : j + 1 = i := Option.some.inj h
        simpa using ih j hj
      · split at h
        · obtain rfl : 0 = i := Option.some.inj h
          rename_i hnone _
          simpa using hnone
        · exact absurd h (by simp)
    · exact absurd h (by simp)

/-- Helper: the blank-line matcher only fires at a newline. -/
theorem blankLineMatcher_not_nl {c : Char} (rest : List Char) (hc : c ≠ '\n') :
    blankLineMatcher (c :: rest) = none := by
  unfold blankLineMatcher
  split
  · rename_i heq
    exact absurd (List.cons.inj heq).1 hc
  · rfl

/-- Helper: inverting `lastNlIdx (c :: l) = none`. -/
theorem lastNlIdx_cons_none {c : Char} {l : List Char}
    (h : lastNlIdx (c :: l) = none) :
    c ≠ '\n' ∧ (isPySpaceChar c = true → lastNlIdx l = none) := by
  unfold lastNlIdx at h
  split at h
  · rename_i hws
    split at h
    · exact absurd h (by simp)
    · rename_i hr
      split at h
      · exact absurd h (by simp)
      · rename_i hc
        exact ⟨hc, fun _ => hr⟩
  · rename_i hws
    constructor
    · intro hc
      subst hc
      exact hws (by decide)
    · intro hwt
      exact absurd hwt (by simpa using hws)

/-- Helper: the blank-line pass cannot put a newline into a leading
whitespace run that had none. -/
theorem blankLine_none : ∀ (fuel : Nat) (l : List Char), lastNlIdx l = none →
    lastNlIdx (reSub blankLineMatcher fuel l) = none := by
  intro fuel
  induction fuel with
  | zero => intro l _; rfl
  | succ fuel ih =>
    intro l h
    cases l with
    | nil => rfl
    | cons c rest =>
      obtain ⟨hc, hr⟩ := lastNlIdx_cons_none h
      unfold reSub
      rw [blankLineMatcher_not_nl rest hc]
      by_cases hws : isPySpaceChar c
      · exact lastNlIdx_ws_cons hws hc (ih rest (hr hws))
      · exact lastNlIdx_not_ws _ (by simpa using hws)

/-- Helper: the blank-line pass establishes `NlInv`. -/
theorem blankLine_NlInv : ∀ (fuel : Nat) (l : List Char),
    NlInv (reSub blankLineMatcher fuel l) := by
  intro fuel
  induction fuel with
  | zero => intro l; exact NlInv_nil
  | succ fuel ih =>
    intro l
    cases l with
    | nil => exact NlInv_nil
    | cons c rest =>
      unfold reSub
      by_cases hc : c = '\n'
      · subst hc
        have hbm : blankLineMatcher ('\n' :: rest) =
            (lastNlIdx rest).map (fun i => (['\n', '\n'], i + 2)) := rfl
        rcases hi : lastNlIdx rest with _ | i
        · rw [hbm, hi]
          exact NlInv_cons_nl (ih rest) (Or.inl (blankLine_none fuel rest hi))
        · rw [hbm, hi]
          simp only [Option.map_some', List.cons_append, List.nil_append,
            List.drop_succ_cons]
          have hd : lastNlIdx (rest.drop (i + 1)) = none := lastNlIdx_drop_last rest i hi
          have hX : lastNlIdx (reSub blankLineMatcher fuel (rest.drop (i + 1))) = none :=
            blankLine_none fuel _ hd
          exact NlInv_cons_nl (NlInv_cons_nl (ih _) (Or.inl hX))
            (Or.inr (lastNlIdx_nl_none hX))
      · rw [blankLineMatcher_not_nl rest hc]
        exact NlInv_cons hc (ih rest)

/-- Helper: under `NlInv`, the blank-line collapse is the identity. -/
theorem blankLine_id : ∀ (fuel : Nat) (l : List Char), l.length ≤ fuel → NlInv l →
    reSub blankLineMatcher fuel l = l := by
  intro fuel
  induction fuel with
  | zero =>
    intro l hf _
    have hl : l = [] := List.length_eq_zero.mp (by omega)
    subst hl
    rfl
  | succ fuel ih =>
    intro l hf ht
    cases l with
    | nil => rfl
    | cons c rest =>
      unfold reSub
      by_cases hc : c = '\n'
      · subst hc
        have hbm : blankLineMatcher ('\n' :: rest) =
            (lastNlIdx rest).map (fun i => (['\n', '\n'], i + 2)) := rfl
        rcases NlInv_head ht with hi | hi
        · rw [hbm, hi]
          show '\n' :: reSub blankLineMatcher fuel rest = '\n' :: rest
          rw [ih rest (by simp at hf; omega) (NlInv_tail ht)]
        · obtain ⟨rest', rfl, -⟩ := lastNlIdx_zero hi
          rw [hbm, hi]
          simp only [Option.map_some', List.cons_append, List.nil_append,
            List.drop_succ_cons, List.drop_zero]
          rw [ih rest' (by simp at hf; omega) (NlInv_tail (NlInv_tail ht))]
      · rw [blankLineMatcher_not_nl rest hc]
        rw [ih rest (by simp at hf; omega) (NlInv_tail ht)]

/-- Helper: the space-run matcher fires exactly on a space/tab head. -/
theorem spaceRunMatcher_not_sp {c : Char} (rest : List Char) (hc : isSpTab c = false) :
    spaceRunMatcher (c :: rest) = none := by
  show (if isSpTab c = true then some ((' ' :: []), spTabRunLen rest + 1) else none) = none
  rw [hc]
  simp

theorem spaceRunMatcher_sp {c : Char} (rest : List Char) (hc : isSpTab c = true) :
    spaceRunMatcher (c :: rest) = some ([' '], spTabRunLen rest + 1) := by
  show (if isSpTab c = true then some ((' ' :: []), spTabRunLen rest + 1) else none) = _
  rw [hc]
  simp

theorem spaceRunMatcher_repl {l repl : List Char} {n : Nat}
    (h : spaceRunMatcher l = some (repl, n)) : repl = [' '] := by
  cases l with
  | nil => exact absurd h (by simp [spaceRunMatcher])
  | cons c rest =>
    rcases hc : isSpTab c with _ | _
    · rw [spaceRunMatcher_not_sp rest hc] at h
      exact absurd h (by simp)
    · rw [spaceRunMatcher_sp rest hc] at h
      simp at h
      exact h.1.symm

/-- Helper: dropping the leading space/tab run leaves a non-space/tab head
(or nothing). -/
theorem spTabRunLen_drop_head : ∀ (l : List Char) (c : Char),
    (l.drop (spTabRunLen l)).head? = some c → isSpTab c = false := by
  intro l
  induction l with
  | nil => intro c h; exact absurd h (by simp)
  | cons d rest ih =>
    intro c h
    unfold spTabRunLen at h
    rcases hd : isSpTab d with _ | _
    · rw [hd] at h
      simp only [Bool.false_eq_true, if_false, List.drop_zero, List.head?_cons,
        Option.some.injEq] at h
      subst h
      exact hd
    · rw [hd] at h
      simp only [if_true, List.drop_succ_cons] at h
      exact ih c h

/-- Helper: heads that are not space/tab survive the space collapse. -/
theorem collapseSp_head : ∀ (fuel : Nat) (l : List Char),
    (∀ c, l.head? = some c → isSpTab c = false) →
    ∀ c, (reSub spaceRunMatcher fuel l).head? = some c → isSpTab c = false := by
  intro fuel l hl c hc
  cases fuel with
  | zero => exact absurd hc (by simp [reSub])
  | succ fuel =>
    cases l with
    | nil => exact absurd hc (by simp [reSub])
    | cons d rest =>
      have hd : isSpTab d = false := hl d rfl
      unfold reSub at hc
      rw [spaceRunMatcher_not_sp rest hd] at hc
      simp only [List.head?_cons, Option.some.injEq] at hc
      subst hc
      exact hd

/-- Helper: the space collapse emits no tabs. -/
theorem collapseSp_noTab : ∀ (fuel : Nat) (l : List Char),
    Char.ofNat 9 ∉ reSub spaceRunMatcher fuel l := by
  intro fuel
  induction fuel with
  | zero => intro l; simp [reSub]
  | succ fuel ih =>
    intro l
    cases l with
    | nil => simp [reSub]
    | cons c rest =>
      unfold reSub
      rcases hc : isSpTab c with _ | _
      · rw [spaceRunMatcher_not_sp rest hc]
        intro hm
        rcases List.mem_cons.mp hm with hm | hm
        · rw [← hm] at hc
          exact absurd hc (by decide)
        · exact ih rest hm
      · rw [spaceRunMatcher_sp rest hc]
        intro hm
        rcases List.mem_append.mp hm with hm | hm
        · exact absurd hm (by decide)
        · exact ih _ hm

/-- Helper: assembling `SpInv` from a head and a tail. -/
theorem SpInv_cons {c : Char} {l : List Char} (hc : c ≠ Char.ofNat 9)
    (hh : ¬(c = ' ' ∧ l.head? = some ' ')) (h : SpInv l) : SpInv (c :: l) := by
  constructor
  · intro hm
    rcases List.mem_cons.mp hm with hm | hm
    · exact hc hm.symm
    · exact h.1 hm
  · intro l1 l2 heq
    cases l1 with
    | nil =>
      obtain ⟨hc1, heq'⟩ := List.cons.inj heq
      exact hh ⟨hc1, by rw [heq']; rfl⟩
    | cons a l1' =>
      exact h.2 l1' l2 (List.cons.inj heq).2

theorem SpInv_nil : SpInv [] :=
  ⟨by simp, fun l1 l2 h => absurd h (by simp)⟩

theorem SpInv_tail {c : Char} {l : List Char} (h : SpInv (c :: l)) : SpInv l :=
  ⟨fun hm => h.1 (List.mem_cons_of_mem _ hm),
   fun l1 l2 heq => h.2 (c :: l1) l2 (by simp [heq])⟩

/-- Helper: the space collapse establishes `SpInv`. -/
theorem collapseSp_SpInv : ∀ (fuel : Nat) (l : List Char),
    SpInv (reSub spaceRunMatcher fuel l) := by
  intro fuel
  induction fuel with
  | zero => intro l; exact SpInv_nil
  | succ fuel ih =>
    intro l
    cases l with
    | nil => exact SpInv_nil
    | cons c rest =>
      unfold reSub
      rcases hc : isSpTab c with _ | _
      · rw [spaceRunMatcher_not_sp rest hc]
        apply SpInv_cons
        · intro hceq
          rw [hceq] at hc
          exact absurd hc (by decide)
        · rintro ⟨hsp, hhd⟩
          rw [hsp] at hc
          exact absurd hc (by decide)
        · exact ih rest
      · rw [spaceRunMatcher_sp rest hc]
        simp only [List.cons_append, List.nil_append]
        apply SpInv_cons (by decide)
        · rintro ⟨-, hhd⟩
          exact absurd (collapseSp_head fuel _ (spTabRunLen_drop_head rest) ' ' hhd)
            (by decide)
        · exact ih _

/-- Helper: under `SpInv`, the space collapse is the identity. -/
theorem collapseSp_id : ∀ (fuel : Nat) (l : List Char), l.length ≤ fuel → SpInv l →
    reSub spaceRunMatcher fuel l = l := by
  intro fuel
  induction fuel with
  | zero =>
    intro l hf _
    have hl : l = [] := List.length_eq_zero.mp (by omega)
    subst hl
    rfl
  | succ fuel ih =>
    intro l hf hs
    cases l with
    | nil => rfl
    | cons c rest =>
      unfold reSub
      rcases hc : isSpTab c with _ | _
      · rw [spaceRunMatcher_not_sp rest hc]
        rw [ih rest (by simp at hf; omega) (SpInv_tail hs)]
      · have hcsp : c = ' ' := by
          have h' : c = ' ' ∨ c = Char.ofNat 9 := by simpa [isSpTab] using hc
          rcases h' with h' | h'
          · exact h'
          · exfalso
            apply hs.1
            rw [← h']
            exact List.mem_cons_self c rest
        subst hcsp
        have hrun : spTabRunLen rest = 0 := by
          cases rest with
          | nil => rfl
          | cons d r2 =>
            have hdt : d ≠ Char.ofNat 9 := by
              intro h'
              apply hs.1
              rw [← h']
              simp
            have hdsp : d ≠ ' ' := by
              intro h'
              exact hs.2 [] r2 (by simp [h'])
            have hd : isSpTab d = false := by simp [isSpTab, hdsp, hdt]
            have hlen : spTabRunLen (d :: r2) =
                if isSpTab d = true then spTabRunLen r2 + 1 else 0 := rfl
            rw [hlen, hd]
            simp
        rw [spaceRunMatcher_sp rest hc, hrun]
        show ' ' :: reSub spaceRunMatcher fuel rest = ' ' :: rest
        rw [ih rest (by simp at hf; omega) (SpInv_tail hs)]

/-- Helper: spaces and tabs are Python whitespace. -/
theorem isSpTab_pySpace {c : Char} (h : isSpTab c = true) : isPySpaceChar c = true := by
  have h' : c = ' ' ∨ c = Char.ofNat 9 := by simpa [isSpTab] using h
  rcases h' with h' | h' <;> subst h' <;> decide

/-- Helper: dropping the leading space/tab run cannot put a newline into a
leading whitespace run that had none. -/
theorem lastNlIdx_drop_spTab : ∀ (l : List Char), lastNlIdx l = none →
    lastNlIdx (l.drop (spTabRunLen l)) = none := by
  intro l
  induction l with
  | nil => intro _; rfl
  | cons c rest ih =>
    intro h
    obtain ⟨hc, hr⟩ := lastNlIdx_cons_none h
    have hlen : spTabRunLen (c :: rest) =
        if isSpTab c = true then spTabRunLen rest + 1 else 0 := rfl
    rcases hsp : isSpTab c with _ | _
    · rw [hlen, hsp]
      simp only [Bool.false_eq_true, if_false, List.drop_zero]
      exact h
    · rw [hlen, hsp]
      simp only [if_true, List.drop_succ_cons]
      exact ih (hr (isSpTab_pySpace hsp))

/-- Helper: the space collapse cannot put a newline into a leading
whitespace run that had none. -/
theorem collapseSp_lastNl_none : ∀ (fuel : Nat) (l : List Char), lastNlIdx l = none →
    lastNlIdx (reSub spaceRunMatcher fuel l) = none := by
  intro fuel
  induction fuel with
  | zero => intro l _; rfl
  | succ fuel ih =>
    intro l h
    cases l with
    | nil => rfl
    | cons c rest =>
      obtain ⟨hc, hr⟩ := lastNlIdx_cons_none h
      unfold reSub
      rcases hsp : isSpTab c with _ | _
      · rw [spaceRunMatcher_not_sp rest hsp]
        by_cases hws : isPySpaceChar c
        · exact lastNlIdx_ws_cons hws hc (ih rest (hr hws))
        · exact lastNlIdx_not_ws _ (by simpa using hws)
      · rw [spaceRunMatcher_sp rest hsp]
        show lastNlIdx
          (' ' :: reSub spaceRunMatcher fuel (rest.drop (spTabRunLen rest))) = none
        exact lastNlIdx_ws_cons (by decide) (by decide)
          (ih _ (lastNlIdx_drop_spTab rest (hr (isSpTab_pySpace hsp))))

/-- Helper: the space collapse keeps the last-newline index in `none, some 0`. -/
theorem collapseSp_lastNl : ∀ (fuel : Nat) (l : List Char),
    lastNlIdx l = none ∨ lastNlIdx l = some 0 →
    lastNlIdx (reSub spaceRunMatcher fuel l) = none ∨
      lastNlIdx (reSub spaceRunMatcher fuel l) = some 0 := by
  intro fuel l h
  rcases h with h | h
  · exact Or.inl (collapseSp_lastNl_none fuel l h)
  · obtain ⟨l', rfl, hl'⟩ := lastNlIdx_zero h
    cases fuel with
    | zero => exact Or.inl rfl
    | succ fuel =>
      right
      unfold reSub
      rw [spaceRunMatcher_not_sp l' (by decide)]
      exact lastNlIdx_nl_none (collapseSp_lastNl_none fuel l' hl')

/-- Helper: the space collapse preserves `NlInv`. -/
theorem collapseSp_NlInv : ∀ (fuel : Nat) (l : List Char), NlInv l →
    NlInv (reSub spaceRunMatcher fuel l) := by
  intro fuel
  induction fuel with
  | zero => intro l _; exact NlInv_nil
  | succ fuel ih =>
    intro l h
    cases l with
    | nil => exact NlInv_nil
    | cons c rest =>
      unfold reSub
      rcases hsp : isSpTab c with _ | _
      · rw [spaceRunMatcher_not_sp rest hsp]
        by_cases hc : c = '\n'
        · subst hc
          exact NlInv_cons_nl (ih rest (NlInv_tail h))
            (collapseSp_lastNl fuel rest (NlInv_head h))
        · exact NlInv_cons hc (ih rest (NlInv_tail h))
      · rw [spaceRunMatcher_sp rest hsp]
        show NlInv (' ' :: reSub spaceRunMatcher fuel (rest.drop (spTabRunLen rest)))
        exact NlInv_cons (by decide) (ih _ (NlInv_drop (NlInv_tail h) _))

/-- Helper: the blank-line matcher always replaces with two newlines. -/
theorem blankLineMatcher_repl {l repl : List Char} {n : Nat}
    (h : blankLineMatcher l = some (repl, n)) : repl = ['\n', '\n'] := by
  unfold blankLineMatcher at h
  split at h
  · rcases hi : lastNlIdx _ with _ | i
    · rw [hi] at h
      exact absurd h (by simp)
    · rw [hi] at h
      simp at h
      exact h.1.symm
  · exact absurd h (by simp)

/-- Helper: the close-tag matcher always replaces with one newline. -/
theorem closeTagMatcher_repl {l repl : List Char} {n : Nat}
    (h : closeTagMatcher l = some (repl, n)) : repl = ['\n'] := by
  unfold closeTagMatcher at h
  split at h
  · rcases ha : matchCloseTag _ with _ | k
    · rw [ha] at h
      exact absurd h (by simp)
    · rw [ha] at h
      simp at h
      exact h.1.symm
  · exact absurd h (by simp)

/-- Helper: the open-tag matcher always replaces with one newline. -/
theorem openTagMatcher_repl {l repl : List Char} {n : Nat}
    (h : openTagMatcher l = some (repl, n)) : repl = ['\n'] := by
  unfold openTagMatcher at h
  split at h
  · rcases ha : matchOpenTag _ with _ | k
    · rw [ha] at h
      exact absurd h (by simp)
    · rw [ha] at h
      simp at h
      exact h.1.symm
  · exact absurd h (by simp)

/-- Helper: the blank-line collapse preserves `TagInv`. -/
theorem blankLine_TagInv : ∀ (fuel : Nat) (l : List Char), TagInv l →
    TagInv (reSub blankLineMatcher fuel l) :=
  reSub_TagInv blankLineMatcher ['\n']
    (fun a repl n hm x hx => by
      rw [blankLineMatcher_repl hm] at hx
      simp at hx
      simp [hx])
    (by decide) (by decide)
    (fun rest => blankLineMatcher_not_nl rest (by decide))
    (fun rest => blankLineMatcher_not_nl rest (by decide))

/-- Helper: the space collapse preserves `TagInv`. -/
theorem collapseSp_TagInv : ∀ (fuel : Nat) (l : List Char), TagInv l →
    TagInv (reSub spaceRunMatcher fuel l) :=
  reSub_TagInv spaceRunMatcher [' ']
    (fun a repl n hm x hx => by rw [spaceRunMatcher_repl hm] at hx; exact hx)
    (by decide) (by decide)
    (fun rest => spaceRunMatcher_not_sp rest (by decide))
    (fun rest => spaceRunMatcher_not_sp rest (by decide))

/-- Helper: a character absent from the input and from every replacement is
absent from the output of a substitution pass. -/
theorem reSub_not_mem (m : List Char → Option (List Char × Nat)) (S : List Char)
    (hS : ∀ l repl n, m l = some (repl, n) → ∀ x ∈ repl, x ∈ S)
    (fuel : Nat) (l : List Char) (x : Char) (hx1 : x ∉ l) (hx2 : x ∉ S) :
    x ∉ reSub m fuel l := by
  intro hmem
  rcases reSub_subset m S hS fuel l x hmem with h | h
  · exact hx1 h
  · exact hx2 h

/-- Helper: the close-tag pass introduces no ampersand. -/
theorem closeTags_amp (l : List Char) (h : '&' ∉ l) : '&' ∉ closeTagsToNewline l :=
  reSub_not_mem closeTagMatcher ['\n']
    (fun a repl n hm x hx => by rw [closeTagMatcher_repl hm] at hx; exact hx)
    l.length l '&' h (by decide)

/-- Helper: the open-tag pass introduces no ampersand. -/
theorem openTags_amp (l : List Char) (h : '&' ∉ l) : '&' ∉ openTagsToNewline l :=
  reSub_not_mem openTagMatcher ['\n']
    (fun a repl n hm x hx => by rw [openTagMatcher_repl hm] at hx; exact hx)
    l.length l '&' h (by decide)

/-- Helper: the strip-all-tags pass introduces no ampersand. -/
theorem stripTags_amp (l : List Char) (h : '&' ∉ l) : '&' ∉ stripAllTags l :=
  fun hm => h (stripTags_subset l.length l '&' hm)

/-- Helper: the blank-line pass introduces no ampersand. -/
theorem blankLine_amp (l : List Char) (h : '&' ∉ l) : '&' ∉ collapseBlankLines l :=
  reSub_not_mem blankLineMatcher ['\n']
    (fun a repl n hm x hx => by
      rw [blankLineMatcher_repl hm] at hx
      simp at hx
      simp [hx])
    l.length l '&' h (by decide)

/-- Helper: the space-collapse pass introduces no ampersand. -/
theorem collapseSp_amp (l : List Char) (h : '&' ∉ l) : '&' ∉ collapseSpaces l :=
  reSub_not_mem spaceRunMatcher [' ']
    (fun a repl n hm x hx => by rw [spaceRunMatcher_repl hm] at hx; exact hx)
    l.length l '&' h (by decide)

/-- Helper: a list splits into its drop-while part and a front remainder. -/
theorem dropWhile_decomp (p : Char → Bool) : ∀ (l : List Char),
    ∃ t, l = t ++ l.dropWhile p := by
  intro l
  induction l with
  | nil => exact ⟨[], rfl⟩
  | cons c rest ih =>
    by_cases hc : p c = true
    · obtain ⟨t, ht⟩ := ih
      refine ⟨c :: t, ?_⟩
      rw [List.dropWhile_cons, if_pos hc, List.cons_append, ← ht]
    · refine ⟨[], ?_⟩
      rw [List.dropWhile_cons, if_neg hc, List.nil_append]

/-- Helper: a nonempty left part determines the head of an append. -/
theorem head_append_ne {l1 l2 : List Char} (h : l1 ≠ []) :
    (l1 ++ l2).head? = l1.head? := by
  cases l1 with
  | nil => exact absurd rfl h
  | cons c r => rfl

/-- Helper: a head surviving drop-while fails the predicate. -/
theorem dropWhile_head_not (p : Char → Bool) : ∀ (l : List Char) (c : Char),
    (l.dropWhile p).head? = some c → p c = false := by
  intro l
  induction l with
  | nil => intro c h; exact absurd h (by simp)
  | cons d rest ih =>
    intro c h
    rw [List.dropWhile_cons] at h
    by_cases hd : p d = true
    · rw [if_pos hd] at h
      exact ih c h
    · rw [if_neg hd] at h
      simp only [List.head?_cons, Option.some.injEq] at h
      subst h
      simpa using hd

/-- Helper: drop-while is the identity when the head already fails. -/
theorem dropWhile_of_head (p : Char → Bool) (l : List Char)
    (h : ∀ c, l.head? = some c → p c = false) : l.dropWhile p = l := by
  cases l with
  | nil => rfl
  | cons c rest =>
    rw [List.dropWhile_cons, if_neg (by simp [h c rfl])]

/-- Helper: the two-sided strip leaves nothing for a further front strip. -/
theorem dropWhile_rev_drop (p : Char → Bool) (l : List Char) :
    (((l.dropWhile p).reverse.dropWhile p).reverse).dropWhile p
      = ((l.dropWhile p).reverse.dropWhile p).reverse := by
  apply dropWhile_of_head
  intro c hc
  obtain ⟨tw, htw⟩ := dropWhile_decomp p (l.dropWhile p).reverse
  have hrev : l.dropWhile p
      = ((l.dropWhile p).reverse.dropWhile p).reverse ++ tw.reverse := by
    have h := congrArg List.reverse htw
    simpa using h
  have hne : ((l.dropWhile p).reverse.dropWhile p).reverse ≠ [] := by
    intro h0
    rw [h0] at hc
    simp at hc
  have hhead : (l.dropWhile p).head? = some c := by
    rw [hrev, head_append_ne hne, hc]
  exact dropWhile_head_not p l c hhead

/-- Helper: Python `strip` is idempotent. -/
theorem pyStrip_idem (l : List Char) : pyStrip (pyStrip l) = pyStrip l := by
  unfold pyStrip
  rw [dropWhile_rev_drop isPySpaceChar l, List.reverse_reverse,
    dropWhile_of_head isPySpaceChar
      ((l.dropWhile isPySpaceChar).reverse.dropWhile isPySpaceChar)
      (fun c hc =>
        dropWhile_head_not isPySpaceChar (l.dropWhile isPySpaceChar).reverse c hc)]

/-- Helper: the stripped string sits in the middle of the input. -/
theorem pyStrip_decomp (l : List Char) : ∃ t1 t2, l = t1 ++ pyStrip l ++ t2 := by
  obtain ⟨t1, ht1⟩ := dropWhile_decomp isPySpaceChar l
  obtain ⟨t2, ht2⟩ := dropWhile_decomp isPySpaceChar (l.dropWhile isPySpaceChar).reverse
  have key : l.dropWhile isPySpaceChar = pyStrip l ++ t2.reverse := by
    have h := congrArg List.reverse ht2
    simpa [pyStrip] using h
  refine ⟨t1, t2.reverse, ?_⟩
  conv_lhs => rw [ht1]
  rw [key, List.append_assoc]

/-- Helper: `TagInv` restricts to middles. -/
theorem TagInv_mid {l m t1 t2 : List Char} (h : TagInv l) (he : l = t1 ++ m ++ t2) :
    TagInv m := by
  intro m1 m2 heq
  have h' := h (t1 ++ m1) (m2 ++ t2) (by rw [he, heq]; simp)
  rcases h' with h' | h'
  · cases m2 with
    | nil => right; simp
    | cons x m2' =>
      left
      rw [List.cons_append, List.head?_cons] at h'
      rw [List.head?_cons]
      exact h'
  · right
    intro hmem
    exact h' (List.mem_append_left t2 hmem)

/-- Helper: a leading whitespace run with no newline stays so after cutting
a suffix. -/
theorem lastNlIdx_append_none : ∀ (a b : List Char), lastNlIdx (a ++ b) = none →
    lastNlIdx a = none := by
  intro a
  induction a with
  | nil => intro b _; rfl
  | cons c a' ih =>
    intro b h
    rw [List.cons_append] at h
    obtain ⟨hc, hr⟩ := lastNlIdx_cons_none h
    by_cases hws : isPySpaceChar c
    · exact lastNlIdx_ws_cons hws hc (ih b (hr hws))
    · exact lastNlIdx_not_ws _ (by simpa using hws)

/-- Helper: `NlInv` restricts to middles. -/
theorem NlInv_mid {l m t1 t2 : List Char} (h : NlInv l) (he : l = t1 ++ m ++ t2) :
    NlInv m := by
  intro m1 m2 heq
  have h' := h (t1 ++ m1) (m2 ++ t2) (by rw [he, heq]; simp)
  rcases h' with h' | h'
  · exact Or.inl (lastNlIdx_append_none m2 t2 h')
  · obtain ⟨l', hl', hnone⟩ := lastNlIdx_zero h'
    cases m2 with
    | nil => exact Or.inl rfl
    | cons x m2' =>
      rw [List.cons_append] at hl'
      obtain ⟨hx, hrest⟩ := List.cons.inj hl'
      subst hx
      have h2 : lastNlIdx (m2' ++ t2) = none := by rw [hrest]; exact hnone
      exact Or.inr (lastNlIdx_nl_none (lastNlIdx_append_none m2' t2 h2))

/-- Helper: `SpInv` restricts to middles. -/
theorem SpInv_mid {l m t1 t2 : List Char} (h : SpInv l) (he : l = t1 ++ m ++ t2) :
    SpInv m := by
  constructor
  · intro hm
    apply h.1
    rw [he]
    exact List.mem_append_left t2 (List.mem_append_right t1 hm)
  · intro m1 m2 heq
    exact h.2 (t1 ++ m1) (m2 ++ t2) (by rw [he, heq]; simp)

/-- Helper: the final strip preserves `TagInv`. -/
theorem pyStrip_TagInv {l : List Char} (h : TagInv l) : TagInv (pyStrip l) := by
  obtain ⟨t1, t2, he⟩ := pyStrip_decomp l
  exact TagInv_mid h he

/-- Helper: the final strip preserves `NlInv`. -/
theorem pyStrip_NlInv {l : List Char} (h : NlInv l) : NlInv (pyStrip l) := by
  obtain ⟨t1, t2, he⟩ := pyStrip_decomp l
  exact NlInv_mid h he

/-- Helper: the final strip preserves `SpInv`. -/
theorem pyStrip_SpInv {l : List Char} (h : SpInv l) : SpInv (pyStrip l) := by
  obtain ⟨t1, t2, he⟩ := pyStrip_decomp l
  exact SpInv_mid h he

/-- Helper: the final strip introduces no ampersand. -/
theorem pyStrip_amp {l : List Char} (h : '&' ∉ l) : '&' ∉ pyStrip l := by
  obtain ⟨t1, t2, he⟩ := pyStrip_decomp l
  intro hm
  apply h
  rw [he]
  exact List.mem_append_left t2 (List.mem_append_right t1 hm)

/-- Helper: pass-level wrappers of the invariant lemmas. -/
theorem stripAllTags_TagInv (l : List Char) : TagInv (stripAllTags l) :=
  stripTags_TagInv l.length l

theorem collapseBlank_TagInv (l : List Char) (h : TagInv l) :
    TagInv (collapseBlankLines l) := blankLine_TagInv l.length l h

theorem collapseSpaces_TagInv (l : List Char) (h : TagInv l) :
    TagInv (collapseSpaces l) := collapseSp_TagInv l.length l h

theorem collapseBlank_NlInv (l : List Char) : NlInv (collapseBlankLines l) :=
  blankLine_NlInv l.length l

theorem collapseSpaces_NlInv (l : List Char) (h : NlInv l) :
    NlInv (collapseSpaces l) := collapseSp_NlInv l.length l h

theorem collapseSpaces_SpInv (l : List Char) : SpInv (collapseSpaces l) :=
  collapseSp_SpInv l.length l

/-- Helper: on a string satisfying all between-pass invariants, the cleaner
is the identity. -/
theorem clean_second_pass (w : List Char) (hamp : '&' ∉ w) (htag : TagInv w)
    (hnl : NlInv w) (hsp : SpInv w) (hstrip : pyStrip w = w) :
    cleanHtmlContent (String.mk w) = String.mk w := by
  by_cases hw : String.mk w = ""
  · rw [hw]
    rfl
  · unfold cleanHtmlContent
    rw [if_neg hw]
    show String.mk (pyStrip (collapseSpaces (collapseBlankLines (stripAllTags
      (openTagsToNewline (closeTagsToNewline (unescapeCore w))))))) = String.mk w
    have h1 : unescapeCore w = w := by
      unfold unescapeCore
      exact unescape_id _ _ le_rfl hamp
    have h2 : closeTagsToNewline w = w := by
      unfold closeTagsToNewline
      exact closeTags_id _ _ le_rfl htag
    have h3 : openTagsToNewline w = w := by
      unfold openTagsToNewline
      exact openTags_id _ _ le_rfl htag
    have h4 : stripAllTags w = w := by
      unfold stripAllTags
      exact stripTags_id _ _ le_rfl htag
    have h5 : collapseBlankLines w = w := by
      unfold collapseBlankLines
      exact blankLine_id _ _ le_rfl hnl
    have h6 : collapseSpaces w = w := by
      unfold collapseSpaces
      exact collapseSp_id _ _ le_rfl hsp
    rw [h1, h2, h3, h4, h5, h6, hstrip]

/-- C4 counterexample: the markup-stripping operation is not idempotent on
every input — on `"&amp;amp;"` one pass yields `"&amp;"` and a second pass
yields `"&"`, because entity decoding runs again over its own output. -/
theorem C4_counterexample :
    cleanHtmlContent (cleanHtmlContent "&amp;amp;") ≠ cleanHtmlContent "&amp;amp;" ∧
    cleanHtmlContent "&amp;amp;" = "&amp;" ∧
    cleanHtmlContent (cleanHtmlContent "&amp;amp;") = "&" := by
  refine ⟨?_, ?_, ?_⟩ <;> decide

/-- C4: the markup-stripping operation is idempotent on every input without
an ampersand (entity decoding is then the identity, and the tag, blank-line
and whitespace passes each establish an invariant that every later pass
preserves and under which the pass itself is the identity); the unrestricted
claim is refuted by `C4_counterexample`. -/
theorem C4_theorem (s : String) (hamp : '&' ∉ s.data) :
    cleanHtmlContent (cleanHtmlContent s) = cleanHtmlContent s := by
  by_cases hs : s = ""
  · subst hs
    rfl
  · have hcs : cleanHtmlContent s = String.mk (pyStrip (collapseSpaces
        (collapseBlankLines (stripAllTags (openTagsToNewline
        (closeTagsToNewline (unescapeCore s.data))))))) := by
      unfold cleanHtmlContent
      rw [if_neg hs]
    have hid : unescapeCore s.data = s.data := by
      unfold unescapeCore
      exact unescape_id _ _ le_rfl hamp
    rw [hcs, hid]
    apply clean_second_pass
    · exact pyStrip_amp (collapseSp_amp _ (blankLine_amp _ (stripTags_amp _
        (openTags_amp _ (closeTags_amp _ hamp)))))
    · exact pyStrip_TagInv (collapseSpaces_TagInv _ (collapseBlank_TagInv _
        (stripAllTags_TagInv _)))
    · exact pyStrip_NlInv (collapseSpaces_NlInv _ (collapseBlank_NlInv _))
    · exact pyStrip_SpInv (collapseSpaces_SpInv _)
    · exact pyStrip_idem _

/-- C4 witness: the idempotence theorem applied to a concrete ampersand-free
input. -/
theorem C4_witness :
    '&' ∉ ("<p>Hello</p><p>World</p>" : String).data ∧
    cleanHtmlContent (cleanHtmlContent "<p>Hello</p><p>World</p>") =
      cleanHtmlContent "<p>Hello</p><p>World</p>" :=
  ⟨by decide, C4_theorem "<p>Hello</p><p>World</p>" (by decide)⟩
